import Mathlib

/-!
Shallow embedding of `src/wasm/src/ply_splat_core.rs` (a PLY Gaussian-splat
decoder) and verification of its specification claims.

Modelling conventions:
* Byte buffers are `List Nat` (each entry a byte value 0..255).
* `f32`/`f64` values are modelled by `Fl`: NaN, signed infinity, or an exact
  rational.  Arithmetic on finite values is exact (floating-point rounding and
  overflow are idealized away); the IEEE special-value rules for NaN and
  infinities are kept (e.g. `inf * 0 = NaN`, comparisons with NaN are false,
  Rust's `f32::min`/`max` ignore a NaN argument).  Negative zero is identified
  with zero.
* The transcendental functions `exp` and `sqrt` used by the source are taken
  as parameters (`fexp`, `fsqrt`) of the decoder; theorems that depend on
  their values assume only facts true of the real functions (`exp 0 = 1`,
  `sqrt 0 = 0`).
* Rust `usize` arithmetic is modelled on `Nat` (no overflow); the final
  `count as u32` cast is kept as `% 2^32`.
-/

-- Rational arithmetic must evaluate inside `decide`/`rfl` proofs, so the
-- kernel-computable core operations are restored to their definitional
-- unfolding behaviour.
set_option allowUnsafeReducibility true in
attribute [semireducible] Rat.mul Rat.add Rat.sub Rat.neg Rat.div Rat.inv

/-- Model of an `f32`/`f64` value: NaN, an infinity (`pos = true` for `+∞`),
or a finite exact rational. -/
inductive Fl where
  | nan : Fl
  | inf (pos : Bool) : Fl
  | fin (q : ℚ) : Fl
deriving DecidableEq

/-- IEEE `<=` on modelled floats: any comparison involving NaN is false. -/
def fle : Fl → Fl → Bool
  | .nan, _ => false
  | _, .nan => false
  | .inf false, _ => true
  | _, .inf true => true
  | .inf true, _ => false
  | _, .inf false => false
  | .fin a, .fin b => decide (a ≤ b)

/-- IEEE `<` on modelled floats: any comparison involving NaN is false. -/
def flt : Fl → Fl → Bool
  | .nan, _ => false
  | _, .nan => false
  | .inf false, .inf false => false
  | .inf false, _ => true
  | .inf true, _ => false
  | _, .inf true => true
  | _, .inf false => false
  | .fin a, .fin b => decide (a < b)

/-- Rust `f32::min`: if one argument is NaN the other is returned. -/
def fmin (a b : Fl) : Fl :=
  match a, b with
  | .nan, _ => b
  | _, .nan => a
  | _, _ => if fle a b then a else b

/-- Rust `f32::max`: if one argument is NaN the other is returned. -/
def fmax (a b : Fl) : Fl :=
  match a, b with
  | .nan, _ => b
  | _, .nan => a
  | _, _ => if fle b a then a else b

/-- IEEE negation. -/
def fneg : Fl → Fl
  | .nan => .nan
  | .inf p => .inf (!p)
  | .fin q => .fin (-q)

/-- IEEE addition on the model (exact on finite values). -/
def fadd : Fl → Fl → Fl
  | .nan, _ => .nan
  | _, .nan => .nan
  | .inf p, .inf q => if p = q then .inf p else .nan
  | .inf p, .fin _ => .inf p
  | .fin _, .inf q => .inf q
  | .fin a, .fin b => .fin (a + b)

/-- IEEE subtraction, `a - b = a + (-b)`. -/
def fsub (a b : Fl) : Fl := fadd a (fneg b)

/-- IEEE multiplication on the model (exact on finite values);
`∞ * 0 = NaN`. -/
def fmul : Fl → Fl → Fl
  | .nan, _ => .nan
  | _, .nan => .nan
  | .inf p, .inf q => .inf (p == q)
  | .inf p, .fin b => if b = 0 then .nan else .inf (p == decide (0 < b))
  | .fin a, .inf q => if a = 0 then .nan else .inf (q == decide (0 < a))
  | .fin a, .fin b => .fin (a * b)

/-- IEEE division on the model (exact on finite values); `x/0 = ±∞` for
`x ≠ 0`, `0/0 = NaN`, `finite/∞ = 0`. -/
def fdiv : Fl → Fl → Fl
  | .nan, _ => .nan
  | _, .nan => .nan
  | .inf _, .inf _ => .nan
  | .inf p, .fin b => .inf (p == decide (0 ≤ b))
  | .fin _, .inf _ => .fin 0
  | .fin a, .fin b =>
    if b = 0 then (if a = 0 then .nan else .inf (decide (0 < a))) else .fin (a / b)

/-- The PLY scalar wire types (`PlyScalarType` in the source). -/
inductive ScalarTy where
  | char | uchar | short | ushort | int | uint | float | double
deriving DecidableEq

/-- `PlyScalarType::size_bytes`. -/
def sizeBytes : ScalarTy → Nat
  | .char => 1
  | .uchar => 1
  | .short => 2
  | .ushort => 2
  | .int => 4
  | .uint => 4
  | .float => 4
  | .double => 8

/-- `PlyScalarType::is_probably_byte_color`: true for the 8-bit types. -/
def isProbablyByteColor : ScalarTy → Bool
  | .char => true
  | .uchar => true
  | _ => false

/-- Byte buffers. -/
abbrev Bytes := List Nat

/-- UTF-8 bytes (= code points) of an ASCII string literal. -/
def strBytes (s : String) : Bytes := s.data.map Char.toNat

/-- `PlyScalarType::parse`. -/
def parseScalarTy (tok : Bytes) : Option ScalarTy :=
  if tok = strBytes "char" then some .char
  else if tok = strBytes "uchar" then some .uchar
  else if tok = strBytes "short" then some .short
  else if tok = strBytes "ushort" then some .ushort
  else if tok = strBytes "int" then some .int
  else if tok = strBytes "uint" then some .uint
  else if tok = strBytes "float" then some .float
  else if tok = strBytes "double" then some .double
  else none

/-- ASCII whitespace recognised by the model (Rust `char::is_whitespace`
restricted to the ASCII range; headers using non-ASCII Unicode whitespace are
outside the modelled scope). -/
def isWs (b : Nat) : Bool :=
  b = 32 || b = 9 || b = 10 || b = 11 || b = 12 || b = 13

/-- Rust `str::trim` (ASCII whitespace). -/
def trimB (l : Bytes) : Bytes :=
  ((l.dropWhile isWs).reverse.dropWhile isWs).reverse

/-- Rust `str::split('\n')`. -/
def splitLf : Bytes → List Bytes
  | [] => [[]]
  | b :: r =>
    if b = 10 then [] :: splitLf r
    else
      match splitLf r with
      | [] => [[b]]
      | h :: t => (b :: h) :: t

/-- Rust `str::split("\r\n")` (leftmost, non-overlapping). -/
def splitCrLf : Bytes → List Bytes
  | [] => [[]]
  | [b] => [[b]]
  | b1 :: b2 :: r =>
    if b1 = 13 ∧ b2 = 10 then [] :: splitCrLf r
    else
      match splitCrLf (b2 :: r) with
      | [] => [[b1]]
      | h :: t => (b1 :: h) :: t

/-- Helper for `splitWs`: `cur` is the current token accumulated in reverse. -/
def splitWsAux : Bytes → Bytes → List Bytes
  | [], cur => if cur = [] then [] else [cur.reverse]
  | b :: rest, cur =>
    if isWs b then
      (if cur = [] then splitWsAux rest [] else cur.reverse :: splitWsAux rest [])
    else splitWsAux rest (b :: cur)

/-- Rust `str::split_whitespace` (ASCII whitespace): maximal non-whitespace
runs, empties dropped. -/
def splitWs (l : Bytes) : List Bytes := splitWsAux l []

/-- Rust `str::to_lowercase` restricted to ASCII letters. -/
def toLowerB (l : Bytes) : Bytes :=
  l.map (fun b => if 65 ≤ b && b ≤ 90 then b + 32 else b)

/-- Is `b` a UTF-8 continuation byte (`0x80..=0xBF`)? -/
def isCont (b : Nat) : Bool := 128 ≤ b && b ≤ 191

/-- Rust `core::str::from_utf8` validity (rejects overlong encodings,
surrogates and values above U+10FFFF). -/
def validUtf8 : Bytes → Bool
  | [] => true
  | b :: r =>
    if b < 128 then validUtf8 r
    else if 194 ≤ b && b ≤ 223 then
      match r with
      | c1 :: r' => isCont c1 && validUtf8 r'
      | [] => false
    else if 224 ≤ b && b ≤ 239 then
      match r with
      | c1 :: c2 :: r' =>
        (if b = 224 then 160 ≤ c1 && c1 ≤ 191
         else if b = 237 then 128 ≤ c1 && c1 ≤ 159
         else isCont c1) && isCont c2 && validUtf8 r'
      | _ => false
    else if 240 ≤ b && b ≤ 244 then
      match r with
      | c1 :: c2 :: c3 :: r' =>
        (if b = 240 then 144 ≤ c1 && c1 ≤ 191
         else if b = 244 then 128 ≤ c1 && c1 ≤ 143
         else isCont c1) && isCont c2 && isCont c3 && validUtf8 r'
      | _ => false
    else false

/-- Is `b` an ASCII digit? -/
def isDigit (b : Nat) : Bool := 48 ≤ b && b ≤ 57

/-- Numeric value of a list of ASCII digit bytes. -/
def digitsVal (l : Bytes) : Nat := l.foldl (fun a b => a * 10 + (b - 48)) 0

/-- Rust `usize::from_str`: optional leading `+`, then one or more decimal
digits (overflow idealized away). -/
def parseUsize (tok : Bytes) : Option Nat :=
  let digs := match tok with
    | 43 :: r => r
    | r => r
  if digs = [] then none
  else if digs.all isDigit then some (digitsVal digs) else none

/-- Decimal part of Rust `f32::from_str`:
`Digits [. Digits] [(e|E) [sign] Digits]` where the mantissa holds at least
one digit (value kept exact; `f32` rounding and overflow-to-infinity are
idealized away). -/
def parseDec (sgnPos : Bool) (r : Bytes) : Option Fl :=
  let intPart := r.takeWhile isDigit
  let rest1 := r.dropWhile isDigit
  let hadDot : Bool := match rest1 with
    | 46 :: _ => true
    | _ => false
  let afterDot : Bytes := match rest1 with
    | 46 :: t => t
    | _ => rest1
  let fracPart := if hadDot then afterDot.takeWhile isDigit else []
  let rest2 := if hadDot then afterDot.dropWhile isDigit else rest1
  if intPart = [] ∧ (hadDot = false ∨ fracPart = []) then none
  else
    let mant : ℚ := (digitsVal intPart : ℚ) +
      (digitsVal fracPart : ℚ) / ((10 : ℚ) ^ fracPart.length)
    let mk : Int → Option Fl := fun e =>
      some (.fin ((if sgnPos then mant else -mant) * (10 : ℚ) ^ e))
    match rest2 with
    | [] => mk 0
    | eb :: et =>
      if eb = 101 ∨ eb = 69 then
        let (esgnPos, edigs) : Bool × Bytes := match et with
          | 43 :: t => (true, t)
          | 45 :: t => (false, t)
          | t => (true, t)
        if edigs ≠ [] ∧ edigs.all isDigit then
          mk (if esgnPos then (digitsVal edigs : Int) else -(digitsVal edigs : Int))
        else none
      else none

/-- Rust `f32::from_str`: optional sign, then `inf`/`infinity`/`nan`
(case-insensitive) or a decimal number; the whole token must match. -/
def parseF32 (tok : Bytes) : Option Fl :=
  let (sgnPos, r) : Bool × Bytes := match tok with
    | 43 :: t => (true, t)
    | 45 :: t => (false, t)
    | t => (true, t)
  let rl := toLowerB r
  if rl = strBytes "inf" ∨ rl = strBytes "infinity" then some (.inf sgnPos)
  else if rl = strBytes "nan" then some .nan
  else parseDec sgnPos r

/-- `PlyFormat`. -/
inductive PlyFormat where
  | ascii | binaryLittleEndian | binaryBigEndian
deriving DecidableEq

/-- `Newline`: terminator convention detected after `end_header`. -/
inductive Newline where
  | lf | crlf
deriving DecidableEq

/-- `PlyProperty`. -/
inductive Property where
  | scalar (name : Bytes) (ty : ScalarTy)
  | list (name : Bytes) (countTy itemTy : ScalarTy)
deriving DecidableEq

/-- Is a property a list property? -/
def Property.isList : Property → Bool
  | .scalar _ _ => false
  | .list _ _ _ => true

/-- `PlyElement`. -/
structure Element where
  name : Bytes
  count : Nat
  properties : List Property
deriving DecidableEq

/-- `ParsedHeader`. -/
structure ParsedHeader where
  format : PlyFormat
  elements : List Element
  dataOffset : Nat
  newline : Newline
deriving DecidableEq

/-- Errors are the human-readable messages carried by `PlyError`. -/
abbrev PlyErr := String

deriving instance DecidableEq for Except

/-- The `b"end_header"` sentinel bytes. -/
def endHeaderPat : Bytes := strBytes "end_header"

/-- One step of the sentinel scan at index `i`: `some (offset, newline)` when
the sentinel occurs at `i` immediately followed by LF or CRLF (mirrors the
body of the loop in `find_header_end`). -/
def headerHitAt (bytes : Bytes) (i : Nat) : Option (Nat × Newline) :=
  if (bytes.drop i).take 10 = endHeaderPat ∧ i + 10 ≤ bytes.length then
    let k := i + 10
    if bytes.get? k = some 10 then some (k + 1, .lf)
    else if bytes.get? k = some 13 ∧ bytes.get? (k + 1) = some 10 then
      some (k + 2, .crlf)
    else none
  else none

/-- The scan loop of `find_header_end`: try indices `i, i+1, …` for `fuel`
steps, returning the first hit. -/
def scanHdr (bytes : Bytes) : Nat → Nat → Option (Nat × Newline)
  | _, 0 => none
  | i, f + 1 =>
    match headerHitAt bytes i with
    | some r => some r
    | none => scanHdr bytes (i + 1) f

/-- `find_header_end`. -/
def findHeaderEnd (bytes : Bytes) : Except PlyErr (Nat × Newline) :=
  if bytes.length < 10 then .error "PLY: can't find end_header"
  else
    match scanHdr bytes 0 (bytes.length - 10 + 1) with
    | some r => .ok r
    | none => .error "PLY: can't find end_header"

/-- `format <kind>` keyword table in `parse_header`. -/
def parseFormatTok (tok : Bytes) : Option PlyFormat :=
  if tok = strBytes "ascii" then some .ascii
  else if tok = strBytes "binary_little_endian" then some .binaryLittleEndian
  else if tok = strBytes "binary_big_endian" then some .binaryBigEndian
  else none

/-- The directive loop of `parse_header` over the trimmed, non-empty header
lines after the magic line, carrying the optional format, the closed elements
and the currently open element. -/
def procLines : List Bytes → Option PlyFormat → List Element → Option Element →
    Except PlyErr (Option PlyFormat × List Element)
  | [], fmt, els, cur => .ok (fmt, els ++ cur.toList)
  | line :: rest, fmt, els, cur =>
    if line = strBytes "end_header" then .ok (fmt, els ++ cur.toList)
    else
      let toks := splitWs line
      let tag := toks.headD []
      if tag = strBytes "comment" ∨ tag = strBytes "obj_info" then
        procLines rest fmt els cur
      else if tag = strBytes "format" then
        match parseFormatTok (toks.getD 1 []) with
        | some f => procLines rest (some f) els cur
        | none => .error "PLY: unsupported format"
      else if tag = strBytes "element" then
        let els' := els ++ cur.toList
        match toks.get? 1 with
        | none => .error "PLY: bad element"
        | some nm =>
          match toks.get? 2 with
          | none => .error "PLY: bad element count"
          | some cs =>
            match parseUsize cs with
            | none => .error "PLY: bad element count"
            | some c => procLines rest fmt els' (some ⟨nm, c, []⟩)
      else if tag = strBytes "property" then
        match cur with
        | none => .error "PLY: property before element"
        | some curEl =>
          match toks.get? 1 with
          | none => .error "PLY: bad property"
          | some t1 =>
            if t1 = strBytes "list" then
              match toks.get? 2 with
              | none => .error "PLY: bad list property"
              | some ct =>
                match toks.get? 3 with
                | none => .error "PLY: bad list property"
                | some it =>
                  match toks.get? 4 with
                  | none => .error "PLY: bad list property"
                  | some nm =>
                    match parseScalarTy ct with
                    | none => .error "PLY: bad list type"
                    | some cty =>
                      match parseScalarTy it with
                      | none => .error "PLY: bad list type"
                      | some ity =>
                        procLines rest fmt els
                          (some { curEl with
                            properties := curEl.properties ++ [.list nm cty ity] })
            else
              match parseScalarTy t1 with
              | none => .error "PLY: bad scalar type"
              | some ty =>
                match toks.get? 2 with
                | none => .error "PLY: bad scalar property"
                | some nm =>
                  procLines rest fmt els
                    (some { curEl with
                      properties := curEl.properties ++ [.scalar nm ty] })
      else .error "PLY: unknown header directive"

/-- `parse_header`. -/
def parseHeader (bytes : Bytes) : Except PlyErr ParsedHeader :=
  match findHeaderEnd bytes with
  | .error e => .error e
  | .ok (headerEnd, nl) =>
    let headerBytes := bytes.take headerEnd
    if validUtf8 headerBytes then
      let lines0 := match nl with
        | .lf => splitLf headerBytes
        | .crlf => splitCrLf headerBytes
      let lines := (lines0.map trimB).filter (· ≠ [])
      match lines with
      | [] => .error "PLY: first line must be \"ply\""
      | first :: rest =>
        if first = strBytes "ply" then
          match procLines rest none [] none with
          | .error e => .error e
          | .ok (none, _) => .error "PLY: missing format"
          | .ok (some f, els) => .ok ⟨f, els, headerEnd, nl⟩
        else .error "PLY: first line must be \"ply\""
    else .error "PLY: header is not valid utf-8"

/-- Assemble bytes (first byte least significant) into a natural number. -/
def leBits : Bytes → Nat
  | [] => 0
  | b :: r => b + 256 * leBits r

/-- Two's complement interpretation of an `8*n`-bit unsigned value. -/
def twosComp (bits : Nat) (u : Nat) : Int :=
  if u < 2 ^ (bits - 1) then (u : Int) else (u : Int) - 2 ^ bits

/-- Decode an IEEE-754 bit pattern with `exBits` exponent bits and `manBits`
mantissa bits into the idealized value (exact; no rounding involved). -/
def decodeIeee (exBits manBits : Nat) (bits : Nat) : Fl :=
  let man := bits % 2 ^ manBits
  let ex := bits / 2 ^ manBits % 2 ^ exBits
  let sgnPos := bits / 2 ^ (manBits + exBits) % 2 = 0
  let bias : Int := 2 ^ (exBits - 1) - 1
  if ex = 2 ^ exBits - 1 then (if man = 0 then .inf sgnPos else .nan)
  else
    let mag : ℚ :=
      if ex = 0 then (man : ℚ) * (2 : ℚ) ^ (1 - bias - (manBits : Int))
      else ((2 ^ manBits + man : Nat) : ℚ) * (2 : ℚ) ^ ((ex : Int) - bias - (manBits : Int))
    .fin (if sgnPos then mag else -mag)

/-- Value of a scalar of type `ty` stored in bytes `b` (length
`sizeBytes ty`) with the given endianness.  Mirrors the widening in
`read_scalar`; the `f64 → f32` narrowing performed by the caller's `as f32`
is idealized as exact. -/
def decodeScalar (ty : ScalarTy) (little : Bool) (b : Bytes) : Fl :=
  let u := leBits (if little then b else b.reverse)
  match ty with
  | .char => .fin (twosComp 8 u : ℚ)
  | .uchar => .fin (u : ℚ)
  | .short => .fin (twosComp 16 u : ℚ)
  | .ushort => .fin (u : ℚ)
  | .int => .fin (twosComp 32 u : ℚ)
  | .uint => .fin (u : ℚ)
  | .float => decodeIeee 8 23 u
  | .double => decodeIeee 11 52 u

/-- `read_scalar`: bounds-checked scalar read at a byte offset. -/
def readScalar (bytes : Bytes) (off : Nat) (ty : ScalarTy) (little : Bool) :
    Except PlyErr Fl :=
  let need := sizeBytes ty
  if off + need ≤ bytes.length then
    .ok (decodeScalar ty little ((bytes.drop off).take need))
  else .error "PLY: out of bounds while reading binary data"

/-- `sigmoid`, the numerically-stable two-branch logistic, parameterized by
the model of `f32::exp`. -/
def sigmoid (fexp : Fl → Fl) (x : Fl) : Fl :=
  if fle (.fin 0) x then
    let z := fexp (fneg x)
    fdiv (.fin 1) (fadd (.fin 1) z)
  else
    let z := fexp x
    fdiv z (fadd (.fin 1) z)

/-- `clamp255`: clamp to `[0, 255]` then floor (Rust's saturating
`as u32` cast maps NaN to 0; only NaN can reach the cast arm). -/
def clamp255 (x : Fl) : Nat :=
  if fle x (.fin 0) then 0
  else if fle (.fin 255) x then 255
  else
    match x with
    | .fin q => (Int.floor q).toNat
    | _ => 0

/-- `rgba_to_u32`: pack channel bytes as `R | G<<8 | B<<16 | A<<24`. -/
def rgbaToU32 (r g b a : Nat) : Nat :=
  r % 256 + (g % 256) * 256 + (b % 256) * 65536 + (a % 256) * 16777216

/-- `normalize_quat`, parameterized by the model of `f32::sqrt`: a
non-positive length yields normalization factor 1 instead of dividing. -/
def normalizeQuat (fsqrt : Fl → Fl) (x y z w : Fl) : Fl × Fl × Fl × Fl :=
  let len := fsqrt (fadd (fadd (fadd (fmul x x) (fmul y y)) (fmul z z)) (fmul w w))
  let inv := if flt (.fin 0) len then fdiv (.fin 1) len else .fin 1
  (fmul x inv, fmul y inv, fmul z inv, fmul w inv)

/-- The three columns of the rotation matrix in `quat_to_mat3_cols`;
`cIJ` is entry `J` of column `I` (source: `cI[J]`). -/
structure RotCols where
  (c00 c01 c02 c10 c11 c12 c20 c21 c22 : Fl)
deriving DecidableEq

/-- `quat_to_mat3_cols`. -/
def quatToMat3Cols (x y z w : Fl) : RotCols :=
  let xx := fmul x x
  let yy := fmul y y
  let zz := fmul z z
  let xy := fmul x y
  let xz := fmul x z
  let yz := fmul y z
  let wx := fmul w x
  let wy := fmul w y
  let wz := fmul w z
  let r00 := fsub (.fin 1) (fmul (.fin 2) (fadd yy zz))
  let r01 := fmul (.fin 2) (fsub xy wz)
  let r02 := fmul (.fin 2) (fadd xz wy)
  let r10 := fmul (.fin 2) (fadd xy wz)
  let r11 := fsub (.fin 1) (fmul (.fin 2) (fadd xx zz))
  let r12 := fmul (.fin 2) (fsub yz wx)
  let r20 := fmul (.fin 2) (fsub xz wy)
  let r21 := fmul (.fin 2) (fadd yz wx)
  let r22 := fsub (.fin 1) (fmul (.fin 2) (fadd xx yy))
  ⟨r00, r10, r20, r01, r11, r21, r02, r12, r22⟩

/-- One addend `s² * cI[j] * cI[k]` of the covariance sums (left-associated
products as in the source). -/
def covTerm (s2 cij cik : Fl) : Fl := fmul (fmul s2 cij) cik

/-- `covariance_from_quat_scale`: upper triangle
`[m11, m12, m13, m22, m23, m33]` of `R·diag(sx²,sy²,sz²)·Rᵗ`. -/
def covarianceFromQuatScale (fsqrt : Fl → Fl) (qx qy qz qw sx sy sz : Fl) :
    List Fl :=
  let n := normalizeQuat fsqrt qx qy qz qw
  let c := quatToMat3Cols n.1 n.2.1 n.2.2.1 n.2.2.2
  let sx2 := fmul sx sx
  let sy2 := fmul sy sy
  let sz2 := fmul sz sz
  let m11 := fadd (fadd (covTerm sx2 c.c00 c.c00) (covTerm sy2 c.c10 c.c10)) (covTerm sz2 c.c20 c.c20)
  let m12 := fadd (fadd (covTerm sx2 c.c00 c.c01) (covTerm sy2 c.c10 c.c11)) (covTerm sz2 c.c20 c.c21)
  let m13 := fadd (fadd (covTerm sx2 c.c00 c.c02) (covTerm sy2 c.c10 c.c12)) (covTerm sz2 c.c20 c.c22)
  let m22 := fadd (fadd (covTerm sx2 c.c01 c.c01) (covTerm sy2 c.c11 c.c11)) (covTerm sz2 c.c21 c.c21)
  let m23 := fadd (fadd (covTerm sx2 c.c01 c.c02) (covTerm sy2 c.c11 c.c12)) (covTerm sz2 c.c21 c.c22)
  let m33 := fadd (fadd (covTerm sx2 c.c02 c.c02) (covTerm sy2 c.c12 c.c12)) (covTerm sz2 c.c22 c.c22)
  [m11, m12, m13, m22, m23, m33]

/-- Explicit bind on `Except` (errors short-circuit). -/
def ebind {α β : Type} (e : Except PlyErr α) (f : α → Except PlyErr β) :
    Except PlyErr β :=
  match e with
  | .error m => .error m
  | .ok a => f a

/-- The lowercased name → (property index, type) table (`pmap`); modelled as
an association list where the most recent insertion is first, matching
`HashMap` overwrite semantics (duplicate names: last declaration wins). -/
abbrev Pmap := List (Bytes × (Nat × ScalarTy))

/-- Build `pmap` from the properties starting at index `i`: later insertions
(higher indices) end up earlier in the association list, so a duplicate name
resolves to its last declaration, as with `HashMap::insert`. -/
def buildPmapFrom (i : Nat) : List Property → Pmap
  | [] => []
  | .scalar nm ty :: rest => buildPmapFrom (i + 1) rest ++ [(toLowerB nm, (i, ty))]
  | .list _ _ _ :: rest => buildPmapFrom (i + 1) rest

/-- Build `pmap` from the element's properties (scalar properties only,
indexed by their position among all properties). -/
def buildPmap (props : List Property) : Pmap := buildPmapFrom 0 props

/-- `pick_name`: try alias names in order, first present (lowercased) key
wins. -/
def pickName (m : Pmap) : List Bytes → Option (Nat × ScalarTy)
  | [] => none
  | n :: rest =>
    match (m.find? (fun kv => kv.1 == toLowerB n)).map (·.2) with
    | some v => some v
    | none => pickName m rest

/-- `pick_name` + `ok_or_else`. -/
def epick (m : Pmap) (names : List Bytes) (msg : PlyErr) :
    Except PlyErr (Nat × ScalarTy) :=
  match pickName m names with
  | some v => .ok v
  | none => .error msg

/-- `QuatLayout`. -/
inductive QuatLayout where
  | wxyz | xyzw
deriving DecidableEq

def xAliases : List Bytes := [strBytes "x", strBytes "pos_x", strBytes "position_x"]
def yAliases : List Bytes := [strBytes "y", strBytes "pos_y", strBytes "position_y"]
def zAliases : List Bytes := [strBytes "z", strBytes "pos_z", strBytes "position_z"]
def s0Aliases : List Bytes := [strBytes "scale_0", strBytes "sx", strBytes "scale_x", strBytes "scalex"]
def s1Aliases : List Bytes := [strBytes "scale_1", strBytes "sy", strBytes "scale_y", strBytes "scaley"]
def s2Aliases : List Bytes := [strBytes "scale_2", strBytes "sz", strBytes "scale_z", strBytes "scalez"]
def opAliases : List Bytes := [strBytes "opacity", strBytes "alpha", strBytes "opac"]
def redAliases : List Bytes := [strBytes "red", strBytes "r"]
def greenAliases : List Bytes := [strBytes "green", strBytes "g"]
def blueAliases : List Bytes := [strBytes "blue", strBytes "b"]

/-- Quaternion field resolution: all of `rot_0..rot_3` (w,x,y,z order) wins,
else all of `qx,qy,qz,qw` (x,y,z,w order), else the given error. -/
def resolveQuat (m : Pmap) (msg : PlyErr) :
    Except PlyErr (QuatLayout × (Nat × ScalarTy) × (Nat × ScalarTy) × (Nat × ScalarTy) × (Nat × ScalarTy)) :=
  match pickName m [strBytes "rot_0"], pickName m [strBytes "rot_1"],
      pickName m [strBytes "rot_2"], pickName m [strBytes "rot_3"] with
  | some a, some b, some c, some d => .ok (.wxyz, a, b, c, d)
  | _, _, _, _ =>
    match pickName m [strBytes "qx"], pickName m [strBytes "qy"],
        pickName m [strBytes "qz"], pickName m [strBytes "qw"] with
    | some a, some b, some c, some d => .ok (.xyzw, a, b, c, d)
    | _, _, _, _ => .error msg

/-- The source's `SH_C0` decimal literal, kept exact. -/
def shC0 : ℚ := 28209479177387814 / 100000000000000000

/-- Binary-format RGB channel decode: all three declared types 8-bit → raw
values used as 0–255 channels, otherwise values scaled by 255. -/
def binColor (tr tg tb : ScalarTy) (rv gv bv : Fl) : Nat × Nat × Nat :=
  if isProbablyByteColor tr && isProbablyByteColor tg && isProbablyByteColor tb then
    (clamp255 rv, clamp255 gv, clamp255 bv)
  else
    (clamp255 (fmul rv (.fin 255)), clamp255 (fmul gv (.fin 255)), clamp255 (fmul bv (.fin 255)))

/-- DC spherical-harmonic channel decode: `(0.5 + SH_C0 · f) × 255`. -/
def shColor (f0 f1 f2 : Fl) : Nat × Nat × Nat :=
  (clamp255 (fmul (fadd (.fin (1/2)) (fmul (.fin shC0) f0)) (.fin 255)),
   clamp255 (fmul (fadd (.fin (1/2)) (fmul (.fin shC0) f1)) (.fin 255)),
   clamp255 (fmul (fadd (.fin (1/2)) (fmul (.fin shC0) f2)) (.fin 255)))

/-- ASCII-format RGB channel decode: decision by decoded values — all three
`≤ 1.0` → scale by 255, otherwise use unchanged. -/
def asciiColor (rv gv bv : Fl) : Nat × Nat × Nat :=
  let as01 := fle rv (.fin 1) && fle gv (.fin 1) && fle bv (.fin 1)
  (clamp255 (if as01 then fmul rv (.fin 255) else rv),
   clamp255 (if as01 then fmul gv (.fin 255) else gv),
   clamp255 (if as01 then fmul bv (.fin 255) else bv))

/-- Byte size of one property in a record (list properties are unreachable
here: the source panics `unreachable!()`, the call being guarded by the list
check). -/
def propSize : Property → Nat
  | .scalar _ ty => sizeBytes ty
  | .list _ _ _ => 0

/-- Per-property byte offsets within one binary record. -/
def offsetsOf : List Property → List Nat
  | [] => []
  | p :: r => 0 :: (offsetsOf r).map (· + propSize p)

/-- Total binary record stride. -/
def strideOf (props : List Property) : Nat := (props.map propSize).sum

/-- The fields resolved once before the record loop (indices into the
property list plus declared types). -/
structure ResolvedFields where
  (px py pz ps0 ps1 ps2 : Nat × ScalarTy)
  (layout : QuatLayout)
  (pr0 pr1 pr2 pr3 : Nat × ScalarTy)
  (pop : Nat × ScalarTy)
  (colR colG colB pf0 pf1 pf2 : Option (Nat × ScalarTy))

/-- One decoded record: position triple, 6 covariance slots, packed pixel. -/
structure RecOut where
  (cx cy cz : Fl)
  (cov : List Fl)
  (px : Nat)
deriving DecidableEq

/-- Read the resolved property `p` of the record starting at `base`. -/
def readP (bytes : Bytes) (little : Bool) (offs : List Nat) (base : Nat)
    (p : Nat × ScalarTy) : Except PlyErr Fl :=
  readScalar bytes (base + offs.getD p.1 0) p.2 little

/-- Binary color resolution for one record (explicit RGB wins over the SH DC
triple; neither → opaque white). -/
def colorB (bytes : Bytes) (little : Bool) (offs : List Nat) (base : Nat)
    (fl : ResolvedFields) : Except PlyErr (Nat × Nat × Nat) :=
  match fl.colR, fl.colG, fl.colB with
  | some pr, some pg, some pb =>
    ebind (readP bytes little offs base pr) fun rv =>
    ebind (readP bytes little offs base pg) fun gv =>
    ebind (readP bytes little offs base pb) fun bv =>
    .ok (binColor pr.2 pg.2 pb.2 rv gv bv)
  | _, _, _ =>
    match fl.pf0, fl.pf1, fl.pf2 with
    | some p0, some p1, some p2 =>
      ebind (readP bytes little offs base p0) fun f0 =>
      ebind (readP bytes little offs base p1) fun f1 =>
      ebind (readP bytes little offs base p2) fun f2 =>
      .ok (shColor f0 f1 f2)
    | _, _, _ => .ok (255, 255, 255)

/-- Decode one binary record starting at byte `base` (the loop body of the
binary branch of `parse_splat_ply_core_with_opts`). -/
def decodeRecordB (bytes : Bytes) (little : Bool) (offs : List Nat)
    (fl : ResolvedFields) (aLS aLO : Bool) (fexp fsqrt : Fl → Fl)
    (base : Nat) : Except PlyErr RecOut :=
  ebind (readP bytes little offs base fl.px) fun cx =>
  ebind (readP bytes little offs base fl.py) fun cy =>
  ebind (readP bytes little offs base fl.pz) fun cz =>
  ebind (readP bytes little offs base fl.ps0) fun s0 =>
  ebind (readP bytes little offs base fl.ps1) fun s1 =>
  ebind (readP bytes little offs base fl.ps2) fun s2 =>
  let sx := if aLS then fexp s0 else s0
  let sy := if aLS then fexp s1 else s1
  let sz := if aLS then fexp s2 else s2
  ebind (readP bytes little offs base fl.pr0) fun a0 =>
  ebind (readP bytes little offs base fl.pr1) fun a1 =>
  ebind (readP bytes little offs base fl.pr2) fun a2 =>
  ebind (readP bytes little offs base fl.pr3) fun a3 =>
  let q := match fl.layout with
    | .wxyz => (a1, a2, a3, a0)
    | .xyzw => (a0, a1, a2, a3)
  ebind (readP bytes little offs base fl.pop) fun opv =>
  let alpha := if aLO then sigmoid fexp opv else opv
  let cov := covarianceFromQuatScale fsqrt q.1 q.2.1 q.2.2.1 q.2.2.2 sx sy sz
  let a := clamp255 (fmul alpha (.fin 255))
  ebind (colorB bytes little offs base fl) fun rgb =>
  .ok ⟨cx, cy, cz, cov, rgbaToU32 rgb.1 rgb.2.1 rgb.2.2 a⟩

/-- The binary record loop: decode `n` records, advancing by `stride`. -/
def loopB (bytes : Bytes) (little : Bool) (offs : List Nat) (stride : Nat)
    (fl : ResolvedFields) (aLS aLO : Bool) (fexp fsqrt : Fl → Fl) :
    Nat → Nat → Except PlyErr (List RecOut)
  | 0, _ => .ok []
  | n + 1, base =>
    ebind (decodeRecordB bytes little offs fl aLS aLO fexp fsqrt base) fun r =>
    ebind (loopB bytes little offs stride fl aLS aLO fexp fsqrt n (base + stride)) fun rs =>
    .ok (r :: rs)

/-- The lowercased name → ASCII column table (`name_to_col`), indexing over
scalar properties only; modelled like `Pmap` (most recent insertion first). -/
abbrev ColMap := List (Bytes × Nat)

/-- Build `name_to_col` starting at column `i`: column indices advance over
scalar properties only; duplicates resolve to the last declaration. -/
def buildColMapFrom (i : Nat) : List Property → ColMap
  | [] => []
  | .scalar nm _ :: rest => buildColMapFrom (i + 1) rest ++ [(toLowerB nm, i)]
  | .list _ _ _ :: rest => buildColMapFrom i rest

/-- Build `name_to_col`: consecutive column indices over scalar properties. -/
def buildColMap (props : List Property) : ColMap := buildColMapFrom 0 props

/-- The ASCII `col` closure: alias list in order, first present key wins. -/
def colPick (m : ColMap) : List Bytes → Option Nat
  | [] => none
  | n :: rest =>
    match (m.find? (fun kv => kv.1 == toLowerB n)).map (·.2) with
    | some v => some v
    | none => colPick m rest

/-- `col` + `ok_or_else`. -/
def ecolPick (m : ColMap) (names : List Bytes) (msg : PlyErr) :
    Except PlyErr Nat :=
  match colPick m names with
  | some v => .ok v
  | none => .error msg

/-- ASCII quaternion column resolution (same preference order as binary). -/
def resolveQuatCols (m : ColMap) (msg : PlyErr) :
    Except PlyErr (QuatLayout × Nat × Nat × Nat × Nat) :=
  match colPick m [strBytes "rot_0"], colPick m [strBytes "rot_1"],
      colPick m [strBytes "rot_2"], colPick m [strBytes "rot_3"] with
  | some a, some b, some c, some d => .ok (.wxyz, a, b, c, d)
  | _, _, _, _ =>
    match colPick m [strBytes "qx"], colPick m [strBytes "qy"],
        colPick m [strBytes "qz"], colPick m [strBytes "qw"] with
    | some a, some b, some c, some d => .ok (.xyzw, a, b, c, d)
    | _, _, _, _ => .error msg

/-- The resolved ASCII columns. -/
structure AsciiCols where
  (cx cy cz c0 c1 c2 : Nat)
  (layout : QuatLayout)
  (r0 r1 r2 r3 : Nat)
  (op : Nat)
  (cR cG cB cf0 cf1 cf2 : Option Nat)

/-- The ASCII `parse` closure: fetch column `idx` of the split line and parse
it as an `f32`. -/
def parseCol (parts : List Bytes) (idx : Nat) : Except PlyErr Fl :=
  match parts.get? idx with
  | none => .error "PLY ASCII: missing column"
  | some tok =>
    match parseF32 tok with
    | some v => .ok v
    | none => .error "PLY ASCII: failed to parse number"

/-- ASCII color resolution for one record. -/
def colorA (parts : List Bytes) (ac : AsciiCols) : Except PlyErr (Nat × Nat × Nat) :=
  match ac.cR, ac.cG, ac.cB with
  | some rc, some gc, some bc =>
    ebind (parseCol parts rc) fun rv =>
    ebind (parseCol parts gc) fun gv =>
    ebind (parseCol parts bc) fun bv =>
    .ok (asciiColor rv gv bv)
  | _, _, _ =>
    match ac.cf0, ac.cf1, ac.cf2 with
    | some f0c, some f1c, some f2c =>
      ebind (parseCol parts f0c) fun f0 =>
      ebind (parseCol parts f1c) fun f1 =>
      ebind (parseCol parts f2c) fun f2 =>
      .ok (shColor f0 f1 f2)
    | _, _, _ => .ok (255, 255, 255)

/-- Decode one ASCII record line (the loop body of the ASCII branch). -/
def decodeRecordA (ac : AsciiCols) (aLS aLO : Bool) (fexp fsqrt : Fl → Fl)
    (line : Bytes) : Except PlyErr RecOut :=
  let parts := splitWs line
  ebind (parseCol parts ac.cx) fun cx =>
  ebind (parseCol parts ac.cy) fun cy =>
  ebind (parseCol parts ac.cz) fun cz =>
  ebind (parseCol parts ac.c0) fun s0 =>
  ebind (parseCol parts ac.c1) fun s1 =>
  ebind (parseCol parts ac.c2) fun s2 =>
  let sx := if aLS then fexp s0 else s0
  let sy := if aLS then fexp s1 else s1
  let sz := if aLS then fexp s2 else s2
  ebind (parseCol parts ac.r0) fun a0 =>
  ebind (parseCol parts ac.r1) fun a1 =>
  ebind (parseCol parts ac.r2) fun a2 =>
  ebind (parseCol parts ac.r3) fun a3 =>
  let q := match ac.layout with
    | .wxyz => (a1, a2, a3, a0)
    | .xyzw => (a0, a1, a2, a3)
  ebind (parseCol parts ac.op) fun opv =>
  let alpha := if aLO then sigmoid fexp opv else opv
  let cov := covarianceFromQuatScale fsqrt q.1 q.2.1 q.2.2.1 q.2.2.2 sx sy sz
  let a := clamp255 (fmul alpha (.fin 255))
  ebind (colorA parts ac) fun rgb =>
  .ok ⟨cx, cy, cz, cov, rgbaToU32 rgb.1 rgb.2.1 rgb.2.2 a⟩

/-- The ASCII record loop over the selected lines. -/
def loopA (ac : AsciiCols) (aLS aLO : Bool) (fexp fsqrt : Fl → Fl) :
    List Bytes → Except PlyErr (List RecOut)
  | [] => .ok []
  | ln :: rest =>
    ebind (decodeRecordA ac aLS aLO fexp fsqrt ln) fun r =>
    ebind (loopA ac aLS aLO fexp fsqrt rest) fun rs =>
    .ok (r :: rs)

/-- The output buffer set (`SplatPlyBuffersCore`). -/
structure SplatOut where
  (count : Nat)
  (format : PlyFormat)
  (center : List Fl)
  (covariance : List Fl)
  (rgba : List Nat)
  (bboxMin : List Fl)
  (bboxMax : List Fl)
deriving DecidableEq

/-- Flatten record centers into the `3N` center buffer. -/
def flat3 : List RecOut → List Fl
  | [] => []
  | r :: t => r.cx :: r.cy :: r.cz :: flat3 t

/-- Concatenate record covariances into the `6N` covariance buffer. -/
def flatCov : List RecOut → List Fl
  | [] => []
  | r :: t => r.cov ++ flatCov t

/-- Fold of Rust `f32::min` seeded with `+∞` (the bbox lower bound). -/
def foldMin (l : List Fl) : Fl := l.foldl fmin (.inf true)

/-- Fold of Rust `f32::max` seeded with `-∞` (the bbox upper bound). -/
def foldMax (l : List Fl) : Fl := l.foldl fmax (.inf false)

/-- Assemble the output buffers from the decoded records.  The source folds
the bbox and writes the pre-sized arrays inside the record loop; on the
success path this is equivalent to this post-hoc assembly (on error no
buffers are returned at all).  The `count as u32` cast is kept. -/
def mkOut (fmt : PlyFormat) (count : Nat) (recs : List RecOut) : SplatOut :=
  { count := count % 2 ^ 32
    format := fmt
    center := flat3 recs
    covariance := flatCov recs
    rgba := recs.map (·.px)
    bboxMin := [foldMin (recs.map (·.cx)), foldMin (recs.map (·.cy)), foldMin (recs.map (·.cz))]
    bboxMax := [foldMax (recs.map (·.cx)), foldMax (recs.map (·.cy)), foldMax (recs.map (·.cz))] }

/-- Everything `parse_splat_ply_core_with_opts` does after the vertex element
has been located: list-property check, field resolution, record decoding from
`dataOffset`, assembly.  Depends on the header only through the format, the
newline convention, the data offset and the vertex element itself. -/
def decodeBody (fmt : PlyFormat) (nl : Newline) (dOff : Nat) (el : Element)
    (bytes : Bytes) (aLS aLO : Bool) (fexp fsqrt : Fl → Fl) :
    Except PlyErr SplatOut :=
  if el.properties.any Property.isList then
    .error "PLY: vertex has list properties — not supported by this minimal splat parser"
  else
    let m := buildPmap el.properties
    ebind (epick m xAliases "PLY: missing x in vertex") fun px =>
    ebind (epick m yAliases "PLY: missing y in vertex") fun py =>
    ebind (epick m zAliases "PLY: missing z in vertex") fun pz =>
    ebind (epick m s0Aliases "PLY: missing scale_0 in vertex") fun ps0 =>
    ebind (epick m s1Aliases "PLY: missing scale_1 in vertex") fun ps1 =>
    ebind (epick m s2Aliases "PLY: missing scale_2 in vertex") fun ps2 =>
    ebind (resolveQuat m "PLY: missing quaternion fields. Expected either rot_0..rot_3 (wxyz) or qx,qy,qz,qw (xyzw)") fun rq =>
    ebind (epick m opAliases "PLY: missing opacity in vertex") fun pop =>
    let colR := pickName m redAliases
    let colG := pickName m greenAliases
    let colB := pickName m blueAliases
    let pf0 := pickName m [strBytes "f_dc_0"]
    let pf1 := pickName m [strBytes "f_dc_1"]
    let pf2 := pickName m [strBytes "f_dc_2"]
    let fl : ResolvedFields :=
      ⟨px, py, pz, ps0, ps1, ps2, rq.1, rq.2.1, rq.2.2.1, rq.2.2.2.1, rq.2.2.2.2,
        pop, colR, colG, colB, pf0, pf1, pf2⟩
    let count := el.count
    match fmt with
    | .binaryLittleEndian | .binaryBigEndian =>
      let little := fmt == PlyFormat.binaryLittleEndian
      let offs := offsetsOf el.properties
      let stride := strideOf el.properties
      ebind (loopB bytes little offs stride fl aLS aLO fexp fsqrt count dOff) fun recs =>
      .ok (mkOut fmt count recs)
    | .ascii =>
      let data := bytes.drop dOff
      if validUtf8 data then
        let lines := (match nl with
          | .lf => splitLf data
          | .crlf => splitCrLf data).filter (fun l => trimB l ≠ [])
        if lines.length < count then .error "PLY ASCII: not enough vertex lines"
        else
          let cm := buildColMap el.properties
          ebind (ecolPick cm xAliases "PLY ASCII: missing x") fun cxc =>
          ebind (ecolPick cm yAliases "PLY ASCII: missing y") fun cyc =>
          ebind (ecolPick cm zAliases "PLY ASCII: missing z") fun czc =>
          ebind (ecolPick cm s0Aliases "PLY ASCII: missing scale_0") fun c0c =>
          ebind (ecolPick cm s1Aliases "PLY ASCII: missing scale_1") fun c1c =>
          ebind (ecolPick cm s2Aliases "PLY ASCII: missing scale_2") fun c2c =>
          ebind (resolveQuatCols cm "PLY ASCII: missing quaternion fields. Expected either rot_0..rot_3 (wxyz) or qx,qy,qz,qw (xyzw)") fun rqc =>
          ebind (ecolPick cm opAliases "PLY ASCII: missing opacity") fun opc =>
          let ac : AsciiCols :=
            ⟨cxc, cyc, czc, c0c, c1c, c2c, rqc.1, rqc.2.1, rqc.2.2.1, rqc.2.2.2.1, rqc.2.2.2.2,
              opc, colPick cm redAliases, colPick cm greenAliases, colPick cm blueAliases,
              colPick cm [strBytes "f_dc_0"], colPick cm [strBytes "f_dc_1"], colPick cm [strBytes "f_dc_2"]⟩
          ebind (loopA ac aLS aLO fexp fsqrt (lines.take count)) fun recs =>
          .ok (mkOut fmt count recs)
      else .error "PLY ASCII: data is not valid utf-8"

/-- The `"vertex"` element lookup (case-insensitive) + `ok_or_else`. -/
def findVertexEl (els : List Element) : Except PlyErr Element :=
  match els.find? (fun e => toLowerB e.name == strBytes "vertex") with
  | some el => .ok el
  | none => .error "PLY: element \"vertex\" not found"

/-- `parse_splat_ply_core_with_opts`, parameterized by the models of
`f32::exp` and `f32::sqrt`. -/
def parseSplat (bytes : Bytes) (aLS aLO : Bool) (fexp fsqrt : Fl → Fl) :
    Except PlyErr SplatOut :=
  ebind (parseHeader bytes) fun h =>
  ebind (findVertexEl h.elements) fun el =>
  decodeBody h.format h.newline h.dataOffset el bytes aLS aLO fexp fsqrt

/-- `parse_splat_ply_core`: the default-options variant
(`assume_log_scale = true`, `assume_logit_opacity = true`). -/
def parseSplatDefault (bytes : Bytes) (fexp fsqrt : Fl → Fl) :
    Except PlyErr SplatOut :=
  parseSplat bytes true true fexp fsqrt

def tAsciiHdr : String :=
  "ply\nformat ascii 1.0\nelement vertex 1\nproperty float x\nproperty float y\nproperty float z\nproperty float scale_0\nproperty float scale_1\nproperty float scale_2\nproperty float rot_0\nproperty float rot_1\nproperty float rot_2\nproperty float rot_3\nproperty float opacity\nend_header\n"

def tNanInput : Bytes := strBytes (tAsciiHdr ++ "nan 0 0 0 0 0 0 0 0 0 0\n")

def fexpU : Fl → Fl := fun _ => .fin 1
def fsqrtU : Fl → Fl := fun _ => .fin 0

/-! ### Basic `ebind` and `Except` reasoning -/

theorem ebind_ok_iff {α β : Type} (e : Except PlyErr α) (f : α → Except PlyErr β)
    (v : β) : ebind e f = .ok v ↔ ∃ a, e = .ok a ∧ f a = .ok v := by
  cases e <;> simp [ebind]

theorem ebind_err {α β : Type} (m : PlyErr) (f : α → Except PlyErr β) :
    ebind (.error m) f = .error m := rfl

theorem ebind_ok_arg {α β : Type} (a : α) (f : α → Except PlyErr β) :
    ebind (.ok a) f = f a := rfl

/-! ### C2: missing end-of-header sentinel -/

/-- The sentinel `"end_header"` occurs at byte index `i` immediately followed
by LF or by CRLF. -/
def sentinelHit (bytes : Bytes) (i : Nat) : Prop :=
  (bytes.drop i).take 10 = endHeaderPat ∧
    (bytes.get? (i + 10) = some 10 ∨
      (bytes.get? (i + 10) = some 13 ∧ bytes.get? (i + 11) = some 10))

instance (bytes : Bytes) (i : Nat) : Decidable (sentinelHit bytes i) := by
  unfold sentinelHit; infer_instance

theorem headerHitAt_eq_none (bytes : Bytes) (i : Nat)
    (h : ¬ sentinelHit bytes i) : headerHitAt bytes i = none := by
  unfold headerHitAt
  split
  · next hc =>
    rcases hc with ⟨hpat, _⟩
    dsimp only
    split
    · next h10 => exact absurd ⟨hpat, Or.inl h10⟩ h
    · split
      · next h13 => exact absurd ⟨hpat, Or.inr h13⟩ h
      · rfl
  · rfl

theorem sentinelHit_big_false (bytes : Bytes) (i : Nat)
    (hi : bytes.length ≤ i) : ¬ sentinelHit bytes i := by
  intro ⟨hpat, _⟩
  have : bytes.drop i = [] := List.drop_eq_nil_of_le hi
  rw [this] at hpat
  simp [endHeaderPat, strBytes] at hpat

theorem scanHdr_eq_none (bytes : Bytes) (f i : Nat)
    (h : ∀ j, headerHitAt bytes j = none) : scanHdr bytes i f = none := by
  induction f generalizing i with
  | zero => rfl
  | succ f ih => simp [scanHdr, h i, ih]

theorem findHeaderEnd_eq_error (bytes : Bytes)
    (h : ∀ i, i < bytes.length → ¬ sentinelHit bytes i) :
    findHeaderEnd bytes = .error "PLY: can't find end_header" := by
  have hall : ∀ j, headerHitAt bytes j = none := by
    intro j
    by_cases hj : j < bytes.length
    · exact headerHitAt_eq_none bytes j (h j hj)
    · exact headerHitAt_eq_none bytes j (sentinelHit_big_false bytes j (Nat.le_of_not_lt hj))
  unfold findHeaderEnd
  split
  · rfl
  · rw [scanHdr_eq_none bytes _ 0 hall]

/-- C2: an input that nowhere contains `"end_header"` immediately followed by
LF or CRLF (in particular any empty or too-short buffer) makes
`parse_splat_ply_core_with_opts` return the `"PLY: can't find end_header"`
error, for every option flags. -/
theorem c2_missing_sentinel (bytes : Bytes) (aLS aLO : Bool)
    (fexp fsqrt : Fl → Fl)
    (h : ∀ i, i < bytes.length → ¬ sentinelHit bytes i) :
    parseSplat bytes aLS aLO fexp fsqrt = .error "PLY: can't find end_header" := by
  have hh : parseHeader bytes = .error "PLY: can't find end_header" := by
    unfold parseHeader
    rw [findHeaderEnd_eq_error bytes h]
  unfold parseSplat
  rw [hh]
  rfl

/-! ### C3: list properties on the vertex element are a hard error -/

/-- C3: whenever the header parses and the (case-insensitively found) vertex
element declares at least one list property, decoding fails with the
unsupported-list-property error; no buffers are produced. -/
theorem c3_list_property (bytes : Bytes) (aLS aLO : Bool) (fexp fsqrt : Fl → Fl)
    (h : ParsedHeader) (el : Element)
    (hh : parseHeader bytes = .ok h)
    (hel : findVertexEl h.elements = .ok el)
    (hlist : el.properties.any Property.isList = true) :
    parseSplat bytes aLS aLO fexp fsqrt =
      .error "PLY: vertex has list properties — not supported by this minimal splat parser" := by
  unfold parseSplat
  rw [hh, ebind_ok_arg, hel, ebind_ok_arg]
  simp [decodeBody, hlist]

def c3El : Element := ⟨strBytes "vertex", 1, [.list (strBytes "vertex_indices") .uchar .int]⟩

def c3Hdr : ParsedHeader := ⟨.ascii, [c3El], 88, .lf⟩

def c3Bytes : Bytes :=
  strBytes "ply\nformat ascii 1.0\nelement vertex 1\nproperty list uchar int vertex_indices\nend_header\n"

/-- Witness for C3 at a concrete input whose vertex element has one list
property. -/
theorem c3_list_property_witness :
    (parseHeader c3Bytes = .ok c3Hdr ∧ findVertexEl c3Hdr.elements = .ok c3El ∧
      c3El.properties.any Property.isList = true) ∧
    parseSplat c3Bytes true true fexpU fsqrtU =
      .error "PLY: vertex has list properties — not supported by this minimal splat parser" :=
  ⟨⟨by decide, by decide, by decide⟩,
    c3_list_property c3Bytes true true fexpU fsqrtU c3Hdr c3El (by decide) (by decide) (by decide)⟩

/-! ### C4: output buffer lengths are exact linear functions of N -/

theorem covariance_length (fsqrt : Fl → Fl) (a b c d e f g : Fl) :
    (covarianceFromQuatScale fsqrt a b c d e f g).length = 6 := rfl

theorem decodeRecordB_cov_length (bytes : Bytes) (little : Bool)
    (offs : List Nat) (fl : ResolvedFields) (aLS aLO : Bool)
    (fexp fsqrt : Fl → Fl) (base : Nat) (r : RecOut)
    (h : decodeRecordB bytes little offs fl aLS aLO fexp fsqrt base = .ok r) :
    r.cov.length = 6 := by
  unfold decodeRecordB at h
  simp only [ebind_ok_iff] at h
  obtain ⟨cx, -, cy, -, cz, -, s0, -, s1, -, s2, -, a0, -, a1, -, a2, -, a3, -,
    opv, -, rgb, -, h⟩ := h
  cases h
  exact covariance_length _ _ _ _ _ _ _ _

theorem decodeRecordA_cov_length (ac : AsciiCols) (aLS aLO : Bool)
    (fexp fsqrt : Fl → Fl) (line : Bytes) (r : RecOut)
    (h : decodeRecordA ac aLS aLO fexp fsqrt line = .ok r) :
    r.cov.length = 6 := by
  unfold decodeRecordA at h
  simp only [ebind_ok_iff] at h
  obtain ⟨cx, -, cy, -, cz, -, s0, -, s1, -, s2, -, a0, -, a1, -, a2, -, a3, -,
    opv, -, rgb, -, h⟩ := h
  cases h
  exact covariance_length _ _ _ _ _ _ _ _

theorem loopB_ok_shape (bytes : Bytes) (little : Bool) (offs : List Nat)
    (stride : Nat) (fl : ResolvedFields) (aLS aLO : Bool) (fexp fsqrt : Fl → Fl) :
    ∀ n base recs,
      loopB bytes little offs stride fl aLS aLO fexp fsqrt n base = .ok recs →
      recs.length = n ∧ ∀ r ∈ recs, r.cov.length = 6 := by
  intro n
  induction n with
  | zero =>
    intro base recs h
    cases h
    simp
  | succ n ih =>
    intro base recs h
    unfold loopB at h
    simp only [ebind_ok_iff] at h
    obtain ⟨r, hr, rs, hrs, h⟩ := h
    cases h
    obtain ⟨hlen, hcov⟩ := ih (base + stride) rs hrs
    refine ⟨by simp [hlen], ?_⟩
    intro x hx
    rcases List.mem_cons.mp hx with hx | hx
    · subst hx
      exact decodeRecordB_cov_length bytes little offs fl aLS aLO fexp fsqrt base x hr
    · exact hcov x hx

theorem loopA_ok_shape (ac : AsciiCols) (aLS aLO : Bool) (fexp fsqrt : Fl → Fl) :
    ∀ lns recs, loopA ac aLS aLO fexp fsqrt lns = .ok recs →
      recs.length = lns.length ∧ ∀ r ∈ recs, r.cov.length = 6 := by
  intro lns
  induction lns with
  | nil =>
    intro recs h
    cases h
    simp
  | cons ln rest ih =>
    intro recs h
    unfold loopA at h
    simp only [ebind_ok_iff] at h
    obtain ⟨r, hr, rs, hrs, h⟩ := h
    cases h
    obtain ⟨hlen, hcov⟩ := ih rs hrs
    refine ⟨by simp [hlen], ?_⟩
    intro x hx
    rcases List.mem_cons.mp hx with hx | hx
    · subst hx
      exact decodeRecordA_cov_length ac aLS aLO fexp fsqrt ln x hr
    · exact hcov x hx

/-- Successful decoding always produces `mkOut` applied to the declared count
and a record list of exactly that length. -/
theorem decodeBody_ok_shape (fmt : PlyFormat) (nl : Newline) (dOff : Nat)
    (el : Element) (bytes : Bytes) (aLS aLO : Bool) (fexp fsqrt : Fl → Fl)
    (out : SplatOut)
    (h : decodeBody fmt nl dOff el bytes aLS aLO fexp fsqrt = .ok out) :
    ∃ recs : List RecOut, recs.length = el.count ∧ out = mkOut fmt el.count recs ∧
      ∀ r ∈ recs, r.cov.length = 6 := by
  unfold decodeBody at h
  split at h
  · exact absurd h (by simp)
  · simp only [ebind_ok_iff] at h
    obtain ⟨px, -, py, -, pz, -, ps0, -, ps1, -, ps2, -, rq, -, pop, -, h⟩ := h
    split at h
    · simp only [ebind_ok_iff] at h
      obtain ⟨recs, hrecs, h⟩ := h
      cases h
      obtain ⟨hlen, hcov⟩ := loopB_ok_shape _ _ _ _ _ _ _ _ _ _ _ _ hrecs
      exact ⟨recs, hlen, rfl, hcov⟩
    · simp only [ebind_ok_iff] at h
      obtain ⟨recs, hrecs, h⟩ := h
      cases h
      obtain ⟨hlen, hcov⟩ := loopB_ok_shape _ _ _ _ _ _ _ _ _ _ _ _ hrecs
      exact ⟨recs, hlen, rfl, hcov⟩
    · split at h
      · split at h
        · exact absurd h (by simp)
        · next hlines =>
          simp only [ebind_ok_iff] at h
          obtain ⟨cxc, -, cyc, -, czc, -, c0c, -, c1c, -, c2c, -, rqc, -, opc, -, recs, hrecs, h⟩ := h
          cases h
          obtain ⟨hlen, hcov⟩ := loopA_ok_shape _ _ _ _ _ _ _ hrecs
          refine ⟨recs, ?_, rfl, hcov⟩
          rw [hlen, List.length_take]
          exact Nat.min_eq_left (Nat.le_of_not_lt hlines)
      · exact absurd h (by simp)

theorem flat3_length (recs : List RecOut) : (flat3 recs).length = 3 * recs.length := by
  induction recs with
  | nil => rfl
  | cons r t ih => simp [flat3, ih]; ring

theorem flatCov_length (recs : List RecOut) (h : ∀ r ∈ recs, r.cov.length = 6) :
    (flatCov recs).length = 6 * recs.length := by
  induction recs with
  | nil => rfl
  | cons r t ih =>
    simp only [flatCov, List.length_append, List.length_cons]
    rw [h r (List.mem_cons_self r t), ih (fun x hx => h x (List.mem_cons_of_mem r hx))]
    ring

/-- C4: on success the buffer lengths are exact linear functions of the
vertex element's declared count `N` and the returned count field equals `N`
(under the machine-width side condition `N < 2^32` of the `as u32` cast). -/
theorem c4_buffer_lengths (bytes : Bytes) (aLS aLO : Bool) (fexp fsqrt : Fl → Fl)
    (h : ParsedHeader) (el : Element) (out : SplatOut)
    (hh : parseHeader bytes = .ok h)
    (hel : findVertexEl h.elements = .ok el)
    (hok : parseSplat bytes aLS aLO fexp fsqrt = .ok out)
    (hsmall : el.count < 2 ^ 32) :
    out.center.length = 3 * out.count ∧
    out.covariance.length = 6 * out.count ∧
    out.rgba.length = out.count ∧
    out.count = el.count := by
  unfold parseSplat at hok
  rw [hh, ebind_ok_arg, hel, ebind_ok_arg] at hok
  obtain ⟨recs, hlen, hout, hcov⟩ := decodeBody_ok_shape _ _ _ _ _ _ _ _ _ _ hok
  have hcnt : out.count = el.count := by
    rw [hout]
    exact Nat.mod_eq_of_lt hsmall
  subst hout
  refine ⟨?_, ?_, ?_, hcnt⟩
  · show (flat3 recs).length = 3 * (el.count % 2 ^ 32)
    rw [Nat.mod_eq_of_lt hsmall, flat3_length, hlen]
  · show (flatCov recs).length = 6 * (el.count % 2 ^ 32)
    rw [Nat.mod_eq_of_lt hsmall, flatCov_length recs hcov, hlen]
  · show (recs.map (·.px)).length = el.count % 2 ^ 32
    rw [Nat.mod_eq_of_lt hsmall, List.length_map, hlen]

def c4El : Element :=
  ⟨strBytes "vertex", 1,
    [.scalar (strBytes "x") .float, .scalar (strBytes "y") .float,
     .scalar (strBytes "z") .float, .scalar (strBytes "scale_0") .float,
     .scalar (strBytes "scale_1") .float, .scalar (strBytes "scale_2") .float,
     .scalar (strBytes "rot_0") .float, .scalar (strBytes "rot_1") .float,
     .scalar (strBytes "rot_2") .float, .scalar (strBytes "rot_3") .float,
     .scalar (strBytes "opacity") .float]⟩

def c4Hdr : ParsedHeader := ⟨.ascii, [c4El], 276, .lf⟩

def c4Out : SplatOut :=
  ⟨1, .ascii, [.nan, .fin 0, .fin 0], [.fin 0, .fin 0, .fin 0, .fin 0, .fin 0, .fin 0],
    [16777215], [.inf true, .fin 0, .fin 0], [.inf false, .fin 0, .fin 0]⟩

set_option maxRecDepth 400000 in
/-- Witness for C4 at a concrete one-record ASCII input. -/
theorem c4_buffer_lengths_witness :
    (parseHeader tNanInput = .ok c4Hdr ∧ findVertexEl c4Hdr.elements = .ok c4El ∧
      parseSplat tNanInput false false fexpU fsqrtU = .ok c4Out ∧ c4El.count < 2 ^ 32) ∧
    (c4Out.center.length = 3 * c4Out.count ∧
      c4Out.covariance.length = 6 * c4Out.count ∧
      c4Out.rgba.length = c4Out.count ∧
      c4Out.count = c4El.count) :=
  ⟨⟨by decide, by decide, by decide, by decide⟩,
    c4_buffer_lengths tNanInput false false fexpU fsqrtU c4Hdr c4El c4Out
      (by decide) (by decide) (by decide) (by decide)⟩

/-! ### C5: byte-vs-normalized RGB decision differs per format -/

theorem ebind_congr {α β : Type} (e : Except PlyErr α) (f g : α → Except PlyErr β)
    (h : ∀ a, f a = g a) : ebind e f = ebind e g := by
  cases e <;> simp [ebind, h]

/-- C5: with explicit R/G/B fields resolved, the binary decoder chooses the
byte-vs-normalized interpretation from the three declared types (all 8-bit →
raw values used as 0–255 channels, else each value × 255) while the ASCII
decoder chooses from the three decoded values (all ≤ 1.0 → × 255, else
unchanged); `is_probably_byte_color` holds exactly for the 8-bit types. -/
theorem c5_rgb_decision (bytes : Bytes) (little : Bool) (offs : List Nat)
    (base : Nat) (fl : ResolvedFields) (parts : List Bytes) (ac : AsciiCols)
    (pr pg pb : Nat × ScalarTy) (rc gc bc : Nat)
    (hr : fl.colR = some pr) (hg : fl.colG = some pg) (hb : fl.colB = some pb)
    (har : ac.cR = some rc) (hag : ac.cG = some gc) (hab : ac.cB = some bc) :
    (colorB bytes little offs base fl =
      ebind (readP bytes little offs base pr) fun rv =>
      ebind (readP bytes little offs base pg) fun gv =>
      ebind (readP bytes little offs base pb) fun bv =>
      .ok (if isProbablyByteColor pr.2 && isProbablyByteColor pg.2 && isProbablyByteColor pb.2
        then (clamp255 rv, clamp255 gv, clamp255 bv)
        else (clamp255 (fmul rv (.fin 255)), clamp255 (fmul gv (.fin 255)),
              clamp255 (fmul bv (.fin 255))))) ∧
    (colorA parts ac =
      ebind (parseCol parts rc) fun rv =>
      ebind (parseCol parts gc) fun gv =>
      ebind (parseCol parts bc) fun bv =>
      .ok (if fle rv (.fin 1) && fle gv (.fin 1) && fle bv (.fin 1)
        then (clamp255 (fmul rv (.fin 255)), clamp255 (fmul gv (.fin 255)),
              clamp255 (fmul bv (.fin 255)))
        else (clamp255 rv, clamp255 gv, clamp255 bv))) ∧
    (∀ t : ScalarTy, isProbablyByteColor t = true ↔ (t = .char ∨ t = .uchar)) := by
  refine ⟨?_, ?_, ?_⟩
  · unfold colorB
    rw [hr, hg, hb]
    refine ebind_congr _ _ _ (fun rv => ebind_congr _ _ _ (fun gv =>
      ebind_congr _ _ _ (fun bv => ?_)))
    unfold binColor
    split <;> rfl
  · unfold colorA
    rw [har, hag, hab]
    refine ebind_congr _ _ _ (fun rv => ebind_congr _ _ _ (fun gv =>
      ebind_congr _ _ _ (fun bv => ?_)))
    unfold asciiColor
    by_cases hc : (fle rv (.fin 1) && fle gv (.fin 1) && fle bv (.fin 1)) = true <;>
      simp [hc]
  · intro t
    cases t <;> simp [isProbablyByteColor]

def c5Fl : ResolvedFields :=
  ⟨(0, .float), (1, .float), (2, .float), (3, .float), (4, .float), (5, .float),
    .wxyz, (6, .float), (7, .float), (8, .float), (9, .float), (10, .float),
    some (11, .uchar), some (12, .uchar), some (13, .uchar), none, none, none⟩

def c5Ac : AsciiCols :=
  ⟨0, 1, 2, 3, 4, 5, .wxyz, 6, 7, 8, 9, 10, some 11, some 12, some 13, none, none, none⟩

/-- Witness for C5: all three color types 8-bit, raw byte values 7 kept
unchanged. -/
theorem c5_rgb_decision_witness :
    (c5Fl.colR = some (11, ScalarTy.uchar) ∧ c5Fl.colG = some (12, ScalarTy.uchar) ∧
      c5Fl.colB = some (13, ScalarTy.uchar) ∧ c5Ac.cR = some 11 ∧
      c5Ac.cG = some 12 ∧ c5Ac.cB = some 13) ∧
    colorB (List.replicate 60 7) true ((List.range 14).map (· * 4)) 0 c5Fl =
      .ok (7, 7, 7) :=
  ⟨⟨rfl, rfl, rfl, rfl, rfl, rfl⟩,
    ((c5_rgb_decision (List.replicate 60 7) true ((List.range 14).map (· * 4)) 0
      c5Fl [] c5Ac (11, .uchar) (12, .uchar) (13, .uchar) 11 12 13
      rfl rfl rfl rfl rfl rfl).1).trans (by decide)⟩

/-! ### C6: channels clamp to [0,255] and floor, never round -/

/-- C6: every channel byte is the floor of the value clamped to `[0,255]`
(for finite values: `⌊max 0 (min x 255)⌋`); in particular ASCII RGB
`(0.5, 0.5, 0.5)` decodes to `(127,127,127)`, ASCII RGB `(200, 0, 0)` decodes
unchanged to `(200, 0, 0)`, and a raw opacity of 0 decoded through the
logistic yields alpha byte `⌊sigmoid(0)·255⌋ = 127`. -/
theorem c6_clamp_floor (q : ℚ) (fexp : Fl → Fl) (hexp : fexp (.fin 0) = .fin 1) :
    clamp255 (.fin q) = Int.toNat ⌊max 0 (min q 255)⌋ ∧
    asciiColor (.fin (1/2)) (.fin (1/2)) (.fin (1/2)) = (127, 127, 127) ∧
    asciiColor (.fin 200) (.fin 0) (.fin 0) = (200, 0, 0) ∧
    clamp255 (fmul (sigmoid fexp (.fin 0)) (.fin 255)) = 127 := by
  refine ⟨?_, by decide, by decide, ?_⟩
  · unfold clamp255
    by_cases h0 : q ≤ 0
    · rw [if_pos (by simp [fle, h0])]
      rw [max_eq_left (le_trans (min_le_left q 255) h0)]
      simp
    · rw [if_neg (by simp [fle, h0])]
      by_cases h255 : (255 : ℚ) ≤ q
      · rw [if_pos (by simp [fle, h255])]
        rw [min_eq_right h255, max_eq_right (by norm_num : (0 : ℚ) ≤ 255)]
        norm_num
        rfl
      · rw [if_neg (by simp [fle, h255])]
        rw [min_eq_left (le_of_not_le h255), max_eq_right (le_of_lt (lt_of_not_le h0))]
  · have hneg : fneg (.fin 0) = (.fin 0 : Fl) := by decide
    unfold sigmoid
    rw [if_pos (by decide), hneg, hexp]
    decide

/-- Witness for C6 with the exponential modelled at 0 by `exp 0 = 1`. -/
theorem c6_clamp_floor_witness :
    fexpU (.fin 0) = .fin 1 ∧ clamp255 (.fin (255 / 2)) = Int.toNat ⌊max 0 (min (255 / 2 : ℚ) 255)⌋ ∧
      clamp255 (fmul (sigmoid fexpU (.fin 0)) (.fin 255)) = 127 :=
  ⟨rfl, (c6_clamp_floor (255 / 2) fexpU rfl).1, (c6_clamp_floor (255 / 2) fexpU rfl).2.2.2⟩

/-! ### C7: zero-length quaternion fallback -/

theorem fmul_one_right (x : Fl) : fmul x (.fin 1) = x := by
  cases x with
  | nan => rfl
  | inf p => cases p <;> decide
  | fin q => simp [fmul]

/-- C7 (amended): whenever the computed quaternion length is not strictly
positive the normalization factor is 1 (no division happens) and the
quaternion is passed through unchanged; in particular a raw `(0,0,0,0)`
quaternion normalizes to itself and — provided the three scale values are
finite numbers — all 6 emitted covariance slots are non-NaN. The finiteness
proviso is necessary: the original claim quantified over every record with a
raw zero quaternion, but a record whose scale is NaN (or ±∞) still emits NaN
covariance slots (see the counterexample below). -/
theorem c7_zero_quat (fsqrt : Fl → Fl) (hsq : fsqrt (.fin 0) = .fin 0)
    (sx sy sz : ℚ) :
    (∀ x y z w : Fl,
      flt (.fin 0) (fsqrt (fadd (fadd (fadd (fmul x x) (fmul y y)) (fmul z z)) (fmul w w))) = false →
      normalizeQuat fsqrt x y z w = (x, y, z, w)) ∧
    normalizeQuat fsqrt (.fin 0) (.fin 0) (.fin 0) (.fin 0) =
      (.fin 0, .fin 0, .fin 0, .fin 0) ∧
    ∀ c ∈ covarianceFromQuatScale fsqrt (.fin 0) (.fin 0) (.fin 0) (.fin 0)
        (.fin sx) (.fin sy) (.fin sz), c ≠ Fl.nan := by
  have hzq : ∀ x y z w : Fl,
      flt (.fin 0) (fsqrt (fadd (fadd (fadd (fmul x x) (fmul y y)) (fmul z z)) (fmul w w))) = false →
      normalizeQuat fsqrt x y z w = (x, y, z, w) := by
    intro x y z w hlen
    simp [normalizeQuat, hlen, fmul_one_right]
  have hlen0 : flt (.fin 0)
      (fsqrt (fadd (fadd (fadd (fmul (.fin 0) (.fin 0)) (fmul (.fin 0) (.fin 0)))
        (fmul (.fin 0) (.fin 0))) (fmul (.fin 0) (.fin 0)))) = false := by
    have h00 : (fadd (fadd (fadd (fmul (.fin 0) (.fin 0)) (fmul (.fin 0) (.fin 0)))
        (fmul (.fin 0) (.fin 0))) (fmul (.fin 0) (.fin 0))) = (.fin 0 : Fl) := by decide
    rw [h00, hsq]
    decide
  have hn0 := hzq (.fin 0) (.fin 0) (.fin 0) (.fin 0) hlen0
  refine ⟨hzq, hn0, ?_⟩
  intro c hc
  simp only [covarianceFromQuatScale, hn0, quatToMat3Cols, covTerm, fmul, fadd, fsub, fneg,
    mul_zero, zero_mul, mul_one, one_mul, add_zero, zero_add, neg_zero,
    List.mem_cons, List.not_mem_nil, or_false] at hc
  rcases hc with h | h | h | h | h | h <;> subst h <;> simp

/-- Witness for C7 with `sqrt 0 = 0` and unit scales. -/
theorem c7_zero_quat_witness :
    fsqrtU (.fin 0) = .fin 0 ∧
      normalizeQuat fsqrtU (.fin 0) (.fin 0) (.fin 0) (.fin 0) =
        (.fin 0, .fin 0, .fin 0, .fin 0) :=
  ⟨rfl, (c7_zero_quat fsqrtU rfl 1 1 1).2.1⟩

def c7CexIn : Bytes := strBytes (tAsciiHdr ++ "0 0 0 nan 0 0 0 0 0 0 0\n")

def c7CexOut : SplatOut :=
  ⟨1, .ascii, [.fin 0, .fin 0, .fin 0], [.nan, .nan, .nan, .nan, .nan, .nan],
    [16777215], [.fin 0, .fin 0, .fin 0], [.fin 0, .fin 0, .fin 0]⟩

set_option maxRecDepth 400000 in
/-- Counterexample to C7 as stated: a one-record ASCII input whose raw
quaternion tokens `rot_0..rot_3` are all `0` but whose `scale_0` token is
`nan` decodes successfully, yet every emitted covariance slot is NaN — the
zero-quaternion normalization fallback does not by itself make the
covariance non-NaN. Isolated, `covariance_from_quat_scale` on the
`(0,0,0,0)` quaternion with a NaN first scale returns six NaN slots. -/
theorem c7_zero_quat_cex :
    parseSplat c7CexIn false false fexpU fsqrtU = .ok c7CexOut ∧
    0 < c7CexOut.count ∧
    c7CexOut.covariance.getD 0 (.fin 0) = .nan ∧
    covarianceFromQuatScale fsqrtU (.fin 0) (.fin 0) (.fin 0) (.fin 0)
        .nan (.fin 0) (.fin 0) = [.nan, .nan, .nan, .nan, .nan, .nan] ∧
    parseF32 (strBytes "0") = some (.fin 0) ∧
    parseF32 (strBytes "nan") = some .nan :=
  ⟨by decide, by decide, by decide, by decide, by decide, by decide⟩

/-! ### C1: bounding box bounds the decoded centers -/

theorem fle_trans (a b c : Fl) (hab : fle a b = true) (hbc : fle b c = true) :
    fle a c = true := by
  cases a <;> cases b <;> cases c <;>
    simp_all [fle] <;>
    first
      | rfl
      | exact le_trans hab hbc
      | (rename_i p q r; cases p <;> cases q <;> cases r <;> simp_all)

theorem fle_refl_of_ne_nan (a : Fl) (ha : a ≠ .nan) : fle a a = true := by
  cases a with
  | nan => exact absurd rfl ha
  | inf p => cases p <;> rfl
  | fin q => simp [fle]

theorem fle_total_of_ne_nan (a b : Fl) (ha : a ≠ .nan) (hb : b ≠ .nan) :
    fle a b = true ∨ fle b a = true := by
  cases a with
  | nan => exact absurd rfl ha
  | inf p =>
    cases b with
    | nan => exact absurd rfl hb
    | inf q => cases p <;> cases q <;> simp [fle]
    | fin _ => cases p <;> simp [fle]
  | fin qa =>
    cases b with
    | nan => exact absurd rfl hb
    | inf q => cases q <;> simp [fle]
    | fin qb => simpa [fle] using le_total qa qb

theorem fmin_ne_nan (a b : Fl) (ha : a ≠ .nan) : fmin a b ≠ .nan := by
  cases a <;> cases b <;> simp_all [fmin] <;> split <;> simp_all

theorem fmax_ne_nan (a b : Fl) (ha : a ≠ .nan) : fmax a b ≠ .nan := by
  cases a <;> cases b <;> simp_all [fmax] <;> split <;> simp_all

theorem fle_fmin_left (a b : Fl) (ha : a ≠ .nan) (hb : b ≠ .nan) :
    fle (fmin a b) a = true := by
  cases a with
  | nan => exact absurd rfl ha
  | inf p =>
    cases b with
    | nan => exact absurd rfl hb
    | inf q =>
      show fle (if fle (Fl.inf p) (Fl.inf q) then Fl.inf p else Fl.inf q) (Fl.inf p) = true
      split
      · exact fle_refl_of_ne_nan _ ha
      · next h =>
        rcases fle_total_of_ne_nan (Fl.inf p) (Fl.inf q) ha hb with h' | h'
        · exact absurd h' h
        · exact h'
    | fin qb =>
      show fle (if fle (Fl.inf p) (Fl.fin qb) then Fl.inf p else Fl.fin qb) (Fl.inf p) = true
      split
      · exact fle_refl_of_ne_nan _ ha
      · next h =>
        rcases fle_total_of_ne_nan (Fl.inf p) (Fl.fin qb) ha hb with h' | h'
        · exact absurd h' h
        · exact h'
  | fin qa =>
    cases b with
    | nan => exact absurd rfl hb
    | inf q =>
      show fle (if fle (Fl.fin qa) (Fl.inf q) then Fl.fin qa else Fl.inf q) (Fl.fin qa) = true
      split
      · exact fle_refl_of_ne_nan _ ha
      · next h =>
        rcases fle_total_of_ne_nan (Fl.fin qa) (Fl.inf q) ha hb with h' | h'
        · exact absurd h' h
        · exact h'
    | fin qb =>
      show fle (if fle (Fl.fin qa) (Fl.fin qb) then Fl.fin qa else Fl.fin qb) (Fl.fin qa) = true
      split
      · exact fle_refl_of_ne_nan _ ha
      · next h =>
        rcases fle_total_of_ne_nan (Fl.fin qa) (Fl.fin qb) ha hb with h' | h'
        · exact absurd h' h
        · exact h'

theorem fle_fmin_right (a b : Fl) (ha : a ≠ .nan) (hb : b ≠ .nan) :
    fle (fmin a b) b = true := by
  have key : ∀ x y : Fl, x ≠ .nan → y ≠ .nan →
      fmin x y = (if fle x y then x else y) := by
    intro x y hx hy
    cases x <;> cases y <;> simp_all [fmin]
  rw [key a b ha hb]
  split
  · assumption
  · exact fle_refl_of_ne_nan _ hb

theorem fle_fmax_left (a b : Fl) (ha : a ≠ .nan) (hb : b ≠ .nan) :
    fle a (fmax a b) = true := by
  have key : ∀ x y : Fl, x ≠ .nan → y ≠ .nan →
      fmax x y = (if fle y x then x else y) := by
    intro x y hx hy
    cases x <;> cases y <;> simp_all [fmax]
  rw [key a b ha hb]
  split
  · exact fle_refl_of_ne_nan _ ha
  · next h =>
    rcases fle_total_of_ne_nan a b ha hb with h' | h'
    · exact h'
    · exact absurd h' h

theorem fle_fmax_right (a b : Fl) (ha : a ≠ .nan) (hb : b ≠ .nan) :
    fle b (fmax a b) = true := by
  have key : ∀ x y : Fl, x ≠ .nan → y ≠ .nan →
      fmax x y = (if fle y x then x else y) := by
    intro x y hx hy
    cases x <;> cases y <;> simp_all [fmax]
  rw [key a b ha hb]
  split
  · assumption
  · exact fle_refl_of_ne_nan _ hb

theorem fmin_nan_right (a : Fl) (ha : a ≠ .nan) : fmin a .nan = a := by
  cases a <;> simp_all [fmin]

theorem fmax_nan_right (a : Fl) (ha : a ≠ .nan) : fmax a .nan = a := by
  cases a <;> simp_all [fmax]

theorem foldl_fmin_bounds (l : List Fl) (a : Fl) (ha : a ≠ .nan)
    (hl : ∀ x ∈ l, x ≠ .nan) :
    (l.foldl fmin a ≠ .nan) ∧ fle (l.foldl fmin a) a = true ∧
      ∀ x ∈ l, fle (l.foldl fmin a) x = true := by
  induction l generalizing a with
  | nil => exact ⟨ha, fle_refl_of_ne_nan a ha, by simp⟩
  | cons b t ih =>
    have hb : b ≠ .nan := hl b (List.mem_cons_self b t)
    have hab : fmin a b ≠ .nan := fmin_ne_nan a b ha
    obtain ⟨hnn, hinit, hall⟩ := ih (fmin a b) hab (fun x hx => hl x (List.mem_cons_of_mem b hx))
    rw [List.foldl_cons]
    refine ⟨hnn, ?_, ?_⟩
    · exact fle_trans _ _ _ hinit (fle_fmin_left a b ha hb)
    · intro x hx
      rcases List.mem_cons.mp hx with hx | hx
      · subst hx
        exact fle_trans _ _ _ hinit (fle_fmin_right a x ha hb)
      · exact hall x hx

theorem foldl_fmax_bounds (l : List Fl) (a : Fl) (ha : a ≠ .nan)
    (hl : ∀ x ∈ l, x ≠ .nan) :
    (l.foldl fmax a ≠ .nan) ∧ fle a (l.foldl fmax a) = true ∧
      ∀ x ∈ l, fle x (l.foldl fmax a) = true := by
  induction l generalizing a with
  | nil => exact ⟨ha, fle_refl_of_ne_nan a ha, by simp⟩
  | cons b t ih =>
    have hb : b ≠ .nan := hl b (List.mem_cons_self b t)
    have hab : fmax a b ≠ .nan := fmax_ne_nan a b ha
    obtain ⟨hnn, hinit, hall⟩ := ih (fmax a b) hab (fun x hx => hl x (List.mem_cons_of_mem b hx))
    rw [List.foldl_cons]
    refine ⟨hnn, ?_, ?_⟩
    · exact fle_trans _ _ _ (fle_fmax_left a b ha hb) hinit
    · intro x hx
      rcases List.mem_cons.mp hx with hx | hx
      · subst hx
        exact fle_trans _ _ _ (fle_fmax_right a x ha hb) hinit
      · exact hall x hx

theorem foldMin_bounds (l : List Fl) (hl : ∀ x ∈ l, x ≠ .nan) :
    ∀ x ∈ l, fle (foldMin l) x = true :=
  (foldl_fmin_bounds l (.inf true) (by simp) hl).2.2

theorem foldMax_bounds (l : List Fl) (hl : ∀ x ∈ l, x ≠ .nan) :
    ∀ x ∈ l, fle x (foldMax l) = true :=
  (foldl_fmax_bounds l (.inf false) (by simp) hl).2.2

/-- Component `k` (0,1,2 ↦ x,y,z) of a record. -/
def recComp (r : RecOut) (k : Nat) : Fl :=
  match k with
  | 0 => r.cx
  | 1 => r.cy
  | _ => r.cz

theorem flat3_getD (recs : List RecOut) (i k : Nat) (hi : i < recs.length)
    (hk : k < 3) :
    (flat3 recs).getD (3 * i + k) .nan = recComp (recs.get ⟨i, hi⟩) k := by
  induction recs generalizing i with
  | nil => simp at hi
  | cons r t ih =>
    cases i with
    | zero =>
      interval_cases k <;> simp [flat3, recComp]
    | succ i =>
      have h3 : 3 * (i + 1) + k = (3 * i + k) + 1 + 1 + 1 := by ring
      rw [h3]
      simp only [flat3, List.getD_cons_succ]
      exact ih i (Nat.lt_of_succ_lt_succ hi)

theorem recComp_mem_flat3 (recs : List RecOut) (r : RecOut) (hr : r ∈ recs)
    (k : Nat) : recComp r k ∈ flat3 recs := by
  induction recs with
  | nil => simp at hr
  | cons s t ih =>
    rcases List.mem_cons.mp hr with hr | hr
    · subst hr
      unfold recComp
      match k with
      | 0 => simp [flat3]
      | 1 => simp [flat3]
      | n + 2 => simp [flat3]
    · simp [flat3, ih hr]

theorem mapComp_sub_flat3 (recs : List RecOut) (k : Nat) (x : Fl)
    (hx : x ∈ recs.map (fun r => recComp r k)) : x ∈ flat3 recs := by
  obtain ⟨r, hr, rfl⟩ := List.mem_map.mp hx
  exact recComp_mem_flat3 recs r hr k

/-- On success, the whole output is `mkOut` of a record list whose length is
the declared count. -/
theorem parseSplat_ok_shape (bytes : Bytes) (aLS aLO : Bool)
    (fexp fsqrt : Fl → Fl) (out : SplatOut)
    (h : parseSplat bytes aLS aLO fexp fsqrt = .ok out) :
    ∃ fmt count recs, (recs : List RecOut).length = count ∧
      out = mkOut fmt count recs ∧ ∀ r ∈ recs, r.cov.length = 6 := by
  unfold parseSplat at h
  simp only [ebind_ok_iff] at h
  obtain ⟨hdr, -, el, -, hbody⟩ := h
  obtain ⟨recs, hlen, hout, hcov⟩ := decodeBody_ok_shape _ _ _ _ _ _ _ _ _ _ hbody
  exact ⟨hdr.format, el.count, recs, hlen, hout, hcov⟩

theorem mkOut_bboxMin_getD (fmt : PlyFormat) (count : Nat) (recs : List RecOut)
    (k : Nat) (hk : k < 3) :
    (mkOut fmt count recs).bboxMin.getD k .nan =
      foldMin (recs.map (fun r => recComp r k)) := by
  interval_cases k <;> simp [mkOut, recComp]

theorem mkOut_bboxMax_getD (fmt : PlyFormat) (count : Nat) (recs : List RecOut)
    (k : Nat) (hk : k < 3) :
    (mkOut fmt count recs).bboxMax.getD k .nan =
      foldMax (recs.map (fun r => recComp r k)) := by
  interval_cases k <;> simp [mkOut, recComp]

/-- C1 (amended): on success with `N > 0`, PROVIDED every decoded center
coordinate is non-NaN, every center coordinate lies inside the reported
bounding box and the bounding box is consistently ordered.  (The original
claim without the non-NaN proviso is refuted by `c1_bbox_cex`: a NaN center
coordinate is skipped by Rust's NaN-ignoring `min`/`max` and lies inside no
interval.) -/
theorem c1_bbox_bounds (bytes : Bytes) (aLS aLO : Bool) (fexp fsqrt : Fl → Fl)
    (out : SplatOut)
    (hok : parseSplat bytes aLS aLO fexp fsqrt = .ok out)
    (hnn : ∀ c ∈ out.center, c ≠ Fl.nan)
    (hpos : 0 < out.count) :
    (∀ i k, i < out.count → k < 3 →
      fle (out.bboxMin.getD k .nan) (out.center.getD (3 * i + k) .nan) = true ∧
      fle (out.center.getD (3 * i + k) .nan) (out.bboxMax.getD k .nan) = true) ∧
    (∀ k, k < 3 → fle (out.bboxMin.getD k .nan) (out.bboxMax.getD k .nan) = true) := by
  obtain ⟨fmt, count, recs, hlen, hout, -⟩ := parseSplat_ok_shape _ _ _ _ _ _ hok
  subst hout
  have hcnt : (mkOut fmt count recs).count = count % 2 ^ 32 := rfl
  have hcen : (mkOut fmt count recs).center = flat3 recs := rfl
  have hnn' : ∀ k, ∀ x ∈ recs.map (fun r => recComp r k), x ≠ Fl.nan := by
    intro k x hx
    exact hnn x (hcen ▸ mapComp_sub_flat3 recs k x hx)
  have hmain : ∀ i k, i < (mkOut fmt count recs).count → k < 3 →
      fle ((mkOut fmt count recs).bboxMin.getD k .nan)
          ((mkOut fmt count recs).center.getD (3 * i + k) .nan) = true ∧
      fle ((mkOut fmt count recs).center.getD (3 * i + k) .nan)
          ((mkOut fmt count recs).bboxMax.getD k .nan) = true := by
    intro i k hi hk
    have hi' : i < recs.length := by
      rw [hlen]
      exact lt_of_lt_of_le (hcnt ▸ hi) (Nat.mod_le count (2 ^ 32))
    have hmem : recComp (recs.get ⟨i, hi'⟩) k ∈ recs.map (fun r => recComp r k) :=
      List.mem_map.mpr ⟨recs.get ⟨i, hi'⟩, List.get_mem recs i hi', rfl⟩
    rw [hcen, flat3_getD recs i k hi' hk, mkOut_bboxMin_getD fmt count recs k hk,
      mkOut_bboxMax_getD fmt count recs k hk]
    exact ⟨foldMin_bounds _ (hnn' k) _ hmem, foldMax_bounds _ (hnn' k) _ hmem⟩
  refine ⟨hmain, ?_⟩
  intro k hk
  obtain ⟨h1, h2⟩ := hmain 0 k hpos hk
  exact fle_trans _ _ _ h1 h2

def c1OutNan : SplatOut :=
  ⟨1, .ascii, [.nan, .fin 0, .fin 0], [.fin 0, .fin 0, .fin 0, .fin 0, .fin 0, .fin 0],
    [16777215], [.inf true, .fin 0, .fin 0], [.inf false, .fin 0, .fin 0]⟩

set_option maxRecDepth 400000 in
/-- Counterexample to C1 as stated: a one-record ASCII input whose `x` column
is the token `nan` decodes successfully with `N = 1`, yet the first center
coordinate does NOT satisfy `bbox_min[0] ≤ center[0]` (and indeed
`bbox_min[0] = +∞ > -∞ = bbox_max[0]`). -/
theorem c1_bbox_cex :
    parseSplat tNanInput false false fexpU fsqrtU = .ok c1OutNan ∧
    0 < c1OutNan.count ∧
    fle (c1OutNan.bboxMin.getD 0 .nan) (c1OutNan.center.getD (3 * 0 + 0) .nan) = false ∧
    fle (c1OutNan.bboxMin.getD 0 .nan) (c1OutNan.bboxMax.getD 0 .nan) = false :=
  ⟨by decide, by decide, by decide, by decide⟩

def c1InPos : Bytes := strBytes (tAsciiHdr ++ "1 2 3 0 0 0 0 0 0 0 0\n")

def c1OutPos : SplatOut :=
  ⟨1, .ascii, [.fin 1, .fin 2, .fin 3], [.fin 0, .fin 0, .fin 0, .fin 0, .fin 0, .fin 0],
    [16777215], [.fin 1, .fin 2, .fin 3], [.fin 1, .fin 2, .fin 3]⟩

set_option maxRecDepth 400000 in
/-- Witness for the amended C1 at a concrete NaN-free input. -/
theorem c1_bbox_bounds_witness :
    (parseSplat c1InPos false false fexpU fsqrtU = .ok c1OutPos ∧
      (∀ c ∈ c1OutPos.center, c ≠ Fl.nan) ∧ 0 < c1OutPos.count) ∧
    (fle (c1OutPos.bboxMin.getD 0 .nan) (c1OutPos.center.getD (3 * 0 + 0) .nan) = true ∧
      fle (c1OutPos.center.getD (3 * 0 + 0) .nan) (c1OutPos.bboxMax.getD 0 .nan) = true) :=
  ⟨⟨by decide, by decide, by decide⟩,
    (c1_bbox_bounds c1InPos false false fexpU fsqrtU c1OutPos
      (by decide) (by decide) (by decide)).1 0 0 (by decide) (by decide)⟩

/-! ### Case-equivalence of headers (C8) and data-offset congruence (C10) -/

/-- Two properties agree up to letter case of their name. -/
def propEquivB : Property → Property → Bool
  | .scalar n1 t1, .scalar n2 t2 => toLowerB n1 == toLowerB n2 && t1 == t2
  | .list n1 c1 i1, .list n2 c2 i2 =>
    toLowerB n1 == toLowerB n2 && c1 == c2 && i1 == i2
  | _, _ => false

def propsEquivB : List Property → List Property → Bool
  | [], [] => true
  | p :: ps, q :: qs => propEquivB p q && propsEquivB ps qs
  | _, _ => false

/-- Two elements agree up to letter case of the element and property names. -/
def elemEquivB (e₁ e₂ : Element) : Bool :=
  (toLowerB e₁.name == toLowerB e₂.name) && (e₁.count == e₂.count) &&
    propsEquivB e₁.properties e₂.properties

def elemsEquivB : List Element → List Element → Bool
  | [], [] => true
  | e :: es, f :: fs => elemEquivB e f && elemsEquivB es fs
  | _, _ => false

theorem propEquivB_isList (p q : Property) (h : propEquivB p q = true) :
    p.isList = q.isList := by
  cases p <;> cases q <;> simp_all [propEquivB, Property.isList]

theorem propEquivB_size (p q : Property) (h : propEquivB p q = true) :
    propSize p = propSize q := by
  cases p <;> cases q <;> simp_all [propEquivB, propSize]

theorem propsEquivB_any_isList (ps qs : List Property)
    (h : propsEquivB ps qs = true) :
    ps.any Property.isList = qs.any Property.isList := by
  induction ps generalizing qs with
  | nil => cases qs with
    | nil => rfl
    | cons q qs => simp [propsEquivB] at h
  | cons p ps ih =>
    cases qs with
    | nil => simp [propsEquivB] at h
    | cons q qs =>
      simp only [propsEquivB, Bool.and_eq_true] at h
      simp [List.any_cons, propEquivB_isList p q h.1, ih qs h.2]

theorem propsEquivB_buildPmapFrom (ps qs : List Property)
    (h : propsEquivB ps qs = true) :
    ∀ i, buildPmapFrom i ps = buildPmapFrom i qs := by
  induction ps generalizing qs with
  | nil => cases qs with
    | nil => intro i; rfl
    | cons q qs => simp [propsEquivB] at h
  | cons p ps ih =>
    cases qs with
    | nil => simp [propsEquivB] at h
    | cons q qs =>
      simp only [propsEquivB, Bool.and_eq_true] at h
      intro i
      cases p with
      | scalar n1 t1 =>
        cases q with
        | scalar n2 t2 =>
          simp only [propEquivB, Bool.and_eq_true, beq_iff_eq] at h
          obtain ⟨⟨hn, ht⟩, hrest⟩ := h
          simp [buildPmapFrom, hn, ht, ih qs hrest]
        | list _ _ _ => simp [propEquivB] at h
      | list n1 c1 i1 =>
        cases q with
        | scalar _ _ => simp [propEquivB] at h
        | list n2 c2 i2 => simp [buildPmapFrom, ih qs h.2]

theorem propsEquivB_buildColMapFrom (ps qs : List Property)
    (h : propsEquivB ps qs = true) :
    ∀ i, buildColMapFrom i ps = buildColMapFrom i qs := by
  induction ps generalizing qs with
  | nil => cases qs with
    | nil => intro i; rfl
    | cons q qs => simp [propsEquivB] at h
  | cons p ps ih =>
    cases qs with
    | nil => simp [propsEquivB] at h
    | cons q qs =>
      simp only [propsEquivB, Bool.and_eq_true] at h
      intro i
      cases p with
      | scalar n1 t1 =>
        cases q with
        | scalar n2 t2 =>
          simp only [propEquivB, Bool.and_eq_true, beq_iff_eq] at h
          obtain ⟨⟨hn, -⟩, hrest⟩ := h
          simp [buildColMapFrom, hn, ih qs hrest]
        | list _ _ _ => simp [propEquivB] at h
      | list n1 c1 i1 =>
        cases q with
        | scalar _ _ => simp [propEquivB] at h
        | list n2 c2 i2 => simp [buildColMapFrom, ih qs h.2]

theorem propsEquivB_offsets (ps qs : List Property)
    (h : propsEquivB ps qs = true) : offsetsOf ps = offsetsOf qs := by
  induction ps generalizing qs with
  | nil => cases qs with
    | nil => rfl
    | cons q qs => simp [propsEquivB] at h
  | cons p ps ih =>
    cases qs with
    | nil => simp [propsEquivB] at h
    | cons q qs =>
      simp only [propsEquivB, Bool.and_eq_true] at h
      simp [offsetsOf, propEquivB_size p q h.1, ih qs h.2]

theorem propsEquivB_stride (ps qs : List Property)
    (h : propsEquivB ps qs = true) : strideOf ps = strideOf qs := by
  induction ps generalizing qs with
  | nil => cases qs with
    | nil => rfl
    | cons q qs => simp [propsEquivB] at h
  | cons p ps ih =>
    cases qs with
    | nil => simp [propsEquivB] at h
    | cons q qs =>
      simp only [propsEquivB, Bool.and_eq_true] at h
      have ht := propEquivB_size p q h.1
      have := ih qs h.2
      simp_all [strideOf]

theorem propEquivB_refl (p : Property) : propEquivB p p = true := by
  cases p <;> simp [propEquivB]

theorem propsEquivB_refl (ps : List Property) : propsEquivB ps ps = true := by
  induction ps with
  | nil => rfl
  | cons p t ih => simp [propsEquivB, propEquivB_refl, ih]

theorem elemEquivB_refl (e : Element) : elemEquivB e e = true := by
  simp [elemEquivB, propsEquivB_refl]

theorem sizeBytes_pos (ty : ScalarTy) : 1 ≤ sizeBytes ty := by
  cases ty <;> simp [sizeBytes]

theorem readScalar_shift (b₁ b₂ : Bytes) (d₁ d₂ r : Nat) (ty : ScalarTy)
    (little : Bool) (hdrop : b₁.drop d₁ = b₂.drop d₂) :
    readScalar b₁ (d₁ + r) ty little = readScalar b₂ (d₂ + r) ty little := by
  have hlen : b₁.length - d₁ = b₂.length - d₂ := by
    have := congrArg List.length hdrop
    simpa using this
  have hneed := sizeBytes_pos ty
  have hiff : (d₁ + r + sizeBytes ty ≤ b₁.length) ↔
      (d₂ + r + sizeBytes ty ≤ b₂.length) := by omega
  have hsl : (b₁.drop (d₁ + r)).take (sizeBytes ty) =
      (b₂.drop (d₂ + r)).take (sizeBytes ty) := by
    rw [← List.drop_drop, ← List.drop_drop, hdrop]
  simp only [readScalar]
  by_cases hb : d₁ + r + sizeBytes ty ≤ b₁.length
  · rw [if_pos hb, if_pos (hiff.mp hb), hsl]
  · rw [if_neg hb, if_neg (fun hc => hb (hiff.mpr hc))]

theorem readP_shift (b₁ b₂ : Bytes) (d₁ d₂ r : Nat) (little : Bool)
    (offs : List Nat) (p : Nat × ScalarTy) (hdrop : b₁.drop d₁ = b₂.drop d₂) :
    readP b₁ little offs (d₁ + r) p = readP b₂ little offs (d₂ + r) p := by
  unfold readP
  rw [Nat.add_assoc, Nat.add_assoc]
  exact readScalar_shift b₁ b₂ d₁ d₂ (r + offs.getD p.1 0) p.2 little hdrop

theorem colorB_shift (b₁ b₂ : Bytes) (d₁ d₂ r : Nat) (little : Bool)
    (offs : List Nat) (fl : ResolvedFields) (hdrop : b₁.drop d₁ = b₂.drop d₂) :
    colorB b₁ little offs (d₁ + r) fl = colorB b₂ little offs (d₂ + r) fl := by
  have hrp : ∀ p, readP b₁ little offs (d₁ + r) p = readP b₂ little offs (d₂ + r) p :=
    fun p => readP_shift b₁ b₂ d₁ d₂ r little offs p hdrop
  unfold colorB
  simp only [hrp]

theorem decodeRecordB_shift (b₁ b₂ : Bytes) (d₁ d₂ r : Nat) (little : Bool)
    (offs : List Nat) (fl : ResolvedFields) (aLS aLO : Bool)
    (fexp fsqrt : Fl → Fl) (hdrop : b₁.drop d₁ = b₂.drop d₂) :
    decodeRecordB b₁ little offs fl aLS aLO fexp fsqrt (d₁ + r) =
    decodeRecordB b₂ little offs fl aLS aLO fexp fsqrt (d₂ + r) := by
  have hrp : ∀ p, readP b₁ little offs (d₁ + r) p = readP b₂ little offs (d₂ + r) p :=
    fun p => readP_shift b₁ b₂ d₁ d₂ r little offs p hdrop
  have hcb := colorB_shift b₁ b₂ d₁ d₂ r little offs fl hdrop
  unfold decodeRecordB
  simp only [hrp, hcb]

theorem loopB_shift (b₁ b₂ : Bytes) (d₁ d₂ : Nat) (little : Bool)
    (offs : List Nat) (stride : Nat) (fl : ResolvedFields) (aLS aLO : Bool)
    (fexp fsqrt : Fl → Fl) (hdrop : b₁.drop d₁ = b₂.drop d₂) :
    ∀ n r, loopB b₁ little offs stride fl aLS aLO fexp fsqrt n (d₁ + r) =
      loopB b₂ little offs stride fl aLS aLO fexp fsqrt n (d₂ + r) := by
  intro n
  induction n with
  | zero => intro r; rfl
  | succ n ih =>
    intro r
    have hrec := decodeRecordB_shift b₁ b₂ d₁ d₂ r little offs fl aLS aLO fexp fsqrt hdrop
    have hrest : loopB b₁ little offs stride fl aLS aLO fexp fsqrt n (d₁ + r + stride) =
        loopB b₂ little offs stride fl aLS aLO fexp fsqrt n (d₂ + r + stride) := by
      rw [Nat.add_assoc, Nat.add_assoc]
      exact ih (r + stride)
    unfold loopB
    rw [hrec, hrest]

/-- `decodeBody` depends on the header only through format, newline and data
offset, on the vertex element only up to letter case of its names, and on the
byte buffer only through its suffix from the data offset. -/
theorem decodeBody_congr (fmt : PlyFormat) (nl : Newline) (d₁ d₂ : Nat)
    (el₁ el₂ : Element) (b₁ b₂ : Bytes) (aLS aLO : Bool) (fexp fsqrt : Fl → Fl)
    (hel : elemEquivB el₁ el₂ = true)
    (hdrop : b₁.drop d₁ = b₂.drop d₂) :
    decodeBody fmt nl d₁ el₁ b₁ aLS aLO fexp fsqrt =
    decodeBody fmt nl d₂ el₂ b₂ aLS aLO fexp fsqrt := by
  simp only [elemEquivB, Bool.and_eq_true, beq_iff_eq] at hel
  obtain ⟨⟨hname, hcount⟩, hprops⟩ := hel
  have hA : el₂.properties.any Property.isList = el₁.properties.any Property.isList :=
    (propsEquivB_any_isList _ _ hprops).symm
  have hP : buildPmap el₂.properties = buildPmap el₁.properties :=
    (propsEquivB_buildPmapFrom _ _ hprops 0).symm
  have hC : buildColMap el₂.properties = buildColMap el₁.properties :=
    (propsEquivB_buildColMapFrom _ _ hprops 0).symm
  have hO : offsetsOf el₂.properties = offsetsOf el₁.properties :=
    (propsEquivB_offsets _ _ hprops).symm
  have hS : strideOf el₂.properties = strideOf el₁.properties :=
    (propsEquivB_stride _ _ hprops).symm
  have hN : el₂.count = el₁.count := hcount.symm
  have hD : List.drop d₂ b₂ = List.drop d₁ b₁ := hdrop.symm
  have hLB : ∀ little offs stride fl n,
      loopB b₂ little offs stride fl aLS aLO fexp fsqrt n d₂ =
      loopB b₁ little offs stride fl aLS aLO fexp fsqrt n d₁ := by
    intro little offs stride fl n
    have := loopB_shift b₂ b₁ d₂ d₁ little offs stride fl aLS aLO fexp fsqrt hD n 0
    simpa using this
  unfold decodeBody
  simp only [hA, hP, hC, hO, hS, hN, hD, hLB]

theorem find?_vertex_equiv (es fs : List Element) (h : elemsEquivB es fs = true) :
    (es.find? (fun e => toLowerB e.name == strBytes "vertex") = none ∧
     fs.find? (fun e => toLowerB e.name == strBytes "vertex") = none) ∨
    ∃ e f, es.find? (fun e => toLowerB e.name == strBytes "vertex") = some e ∧
      fs.find? (fun e => toLowerB e.name == strBytes "vertex") = some f ∧
      elemEquivB e f = true := by
  induction es generalizing fs with
  | nil =>
    cases fs with
    | nil => left; exact ⟨rfl, rfl⟩
    | cons f fs => simp [elemsEquivB] at h
  | cons e es ih =>
    cases fs with
    | nil => simp [elemsEquivB] at h
    | cons f fs =>
      simp only [elemsEquivB, Bool.and_eq_true] at h
      have hname : toLowerB e.name = toLowerB f.name := by
        have h1 := h.1
        simp only [elemEquivB, Bool.and_eq_true, beq_iff_eq] at h1
        exact h1.1.1
      by_cases hv : (toLowerB e.name == strBytes "vertex") = true
      · rw [List.find?_cons_of_pos es
            (show (fun g => toLowerB g.name == strBytes "vertex") e = true from hv),
          List.find?_cons_of_pos fs
            (show (fun g => toLowerB g.name == strBytes "vertex") f = true by
              simp only []
              rw [← hname]
              exact hv)]
        right
        exact ⟨e, f, rfl, rfl, h.1⟩
      · rw [List.find?_cons_of_neg es
            (show ¬ (fun g => toLowerB g.name == strBytes "vertex") e = true from hv),
          List.find?_cons_of_neg fs
            (show ¬ (fun g => toLowerB g.name == strBytes "vertex") f = true by
              simp only []
              rw [← hname]
              exact hv)]
        exact ih fs h.2

theorem findVertexEl_equiv (es fs : List Element) (h : elemsEquivB es fs = true) :
    (findVertexEl es = .error "PLY: element \"vertex\" not found" ∧
     findVertexEl fs = .error "PLY: element \"vertex\" not found") ∨
    ∃ e f, findVertexEl es = .ok e ∧ findVertexEl fs = .ok f ∧
      elemEquivB e f = true := by
  rcases find?_vertex_equiv es fs h with ⟨h1, h2⟩ | ⟨e, f, h1, h2, heq⟩
  · left
    constructor
    · unfold findVertexEl; rw [h1]
    · unfold findVertexEl; rw [h2]
  · right
    refine ⟨e, f, ?_, ?_, heq⟩
    · unfold findVertexEl; rw [h1]
    · unfold findVertexEl; rw [h2]

/-! ### C10: decoding starts at the data offset regardless of element order -/

/-- C10: the decoded output depends on the header's element list only through
the vertex element that is found: two inputs that agree on format, newline,
the found vertex element and the raw bytes from their respective data offsets
decode identically, even if one declares additional elements before the
vertex element — the preceding elements' record data is NOT skipped, decoding
always starts right after the end-of-header terminator. -/
theorem c10_data_offset (b₁ b₂ : Bytes) (aLS aLO : Bool) (fexp fsqrt : Fl → Fl)
    (h₁ h₂ : ParsedHeader) (el₁ el₂ : Element)
    (hh₁ : parseHeader b₁ = .ok h₁) (hh₂ : parseHeader b₂ = .ok h₂)
    (hfmt : h₁.format = h₂.format) (hnl : h₁.newline = h₂.newline)
    (hv₁ : findVertexEl h₁.elements = .ok el₁)
    (hv₂ : findVertexEl h₂.elements = .ok el₂)
    (hel : el₁ = el₂)
    (hdrop : b₁.drop h₁.dataOffset = b₂.drop h₂.dataOffset) :
    parseSplat b₁ aLS aLO fexp fsqrt = parseSplat b₂ aLS aLO fexp fsqrt := by
  unfold parseSplat
  rw [hh₁, hh₂, ebind_ok_arg, ebind_ok_arg, hv₁, hv₂, ebind_ok_arg, ebind_ok_arg,
    hfmt, hnl]
  subst hel
  exact decodeBody_congr _ _ _ _ _ _ _ _ _ _ _ _ (elemEquivB_refl el₁) hdrop

/-! ### C8: case-insensitive element and property lookup -/

/-- C8: lookup is case-insensitive end to end — two inputs whose parsed
headers agree on format, newline convention and (up to letter case of element
and property names) on the element list, and whose bytes agree from the data
offset on, decode to identical results; in particular a `VERTEX` element is
found and decoded exactly like a `vertex` element, with every alias list
resolved case-insensitively in its fixed priority order. -/
theorem c8_case_insensitive (b₁ b₂ : Bytes) (aLS aLO : Bool)
    (fexp fsqrt : Fl → Fl) (h₁ h₂ : ParsedHeader)
    (hh₁ : parseHeader b₁ = .ok h₁) (hh₂ : parseHeader b₂ = .ok h₂)
    (hfmt : h₁.format = h₂.format) (hnl : h₁.newline = h₂.newline)
    (hels : elemsEquivB h₁.elements h₂.elements = true)
    (hdrop : b₁.drop h₁.dataOffset = b₂.drop h₂.dataOffset) :
    parseSplat b₁ aLS aLO fexp fsqrt = parseSplat b₂ aLS aLO fexp fsqrt := by
  unfold parseSplat
  rw [hh₁, hh₂, ebind_ok_arg, ebind_ok_arg]
  rcases findVertexEl_equiv _ _ hels with ⟨he₁, he₂⟩ | ⟨e₁, e₂, he₁, he₂, heq⟩
  · rw [he₁, he₂]
    rfl
  · rw [he₁, he₂, ebind_ok_arg, ebind_ok_arg, hfmt, hnl]
    exact decodeBody_congr _ _ _ _ _ _ _ _ _ _ _ _ heq hdrop

def c10In1 : Bytes :=
  strBytes ("ply\nformat ascii 1.0\nelement foo 1\nproperty float a\nelement vertex 1\nproperty float x\nproperty float y\nproperty float z\nproperty float scale_0\nproperty float scale_1\nproperty float scale_2\nproperty float rot_0\nproperty float rot_1\nproperty float rot_2\nproperty float rot_3\nproperty float opacity\nend_header\n5 6 7 0 0 0 0 0 0 0 0\n")

def c10In2 : Bytes := strBytes (tAsciiHdr ++ "5 6 7 0 0 0 0 0 0 0 0\n")

def c10Hdr1 : ParsedHeader :=
  ⟨.ascii, [⟨strBytes "foo", 1, [.scalar (strBytes "a") .float]⟩, c4El], 307, .lf⟩

set_option maxRecDepth 1000000 in
/-- Witness for C10: an input declaring a `foo` element before `vertex`
decodes identically to one without it when the data bytes coincide —
`foo`'s would-be record data is not skipped. -/
theorem c10_data_offset_witness :
    (parseHeader c10In1 = .ok c10Hdr1 ∧ parseHeader c10In2 = .ok c4Hdr ∧
      findVertexEl c10Hdr1.elements = .ok c4El ∧ findVertexEl c4Hdr.elements = .ok c4El ∧
      c10In1.drop c10Hdr1.dataOffset = c10In2.drop c4Hdr.dataOffset) ∧
    parseSplat c10In1 false false fexpU fsqrtU = parseSplat c10In2 false false fexpU fsqrtU :=
  ⟨⟨by decide, by decide, by decide, by decide, by decide⟩,
    c10_data_offset c10In1 c10In2 false false fexpU fsqrtU c10Hdr1 c4Hdr c4El c4El
      (by decide) (by decide) (by decide) (by decide) (by decide) (by decide) rfl
      (by decide)⟩

def c8In1 : Bytes := strBytes (tAsciiHdr ++ "1 1 1 0 0 0 0 0 0 0 0\n")

def c8In2 : Bytes :=
  strBytes ("ply\nformat ascii 1.0\nelement VERTEX 1\nproperty float X\nproperty float Y\nproperty float Z\nproperty float SCALE_0\nproperty float SCALE_1\nproperty float SCALE_2\nproperty float ROT_0\nproperty float ROT_1\nproperty float ROT_2\nproperty float ROT_3\nproperty float OPACITY\nend_header\n1 1 1 0 0 0 0 0 0 0 0\n")

def c8Hdr2 : ParsedHeader :=
  ⟨.ascii,
    [⟨strBytes "VERTEX", 1,
      [.scalar (strBytes "X") .float, .scalar (strBytes "Y") .float,
       .scalar (strBytes "Z") .float, .scalar (strBytes "SCALE_0") .float,
       .scalar (strBytes "SCALE_1") .float, .scalar (strBytes "SCALE_2") .float,
       .scalar (strBytes "ROT_0") .float, .scalar (strBytes "ROT_1") .float,
       .scalar (strBytes "ROT_2") .float, .scalar (strBytes "ROT_3") .float,
       .scalar (strBytes "OPACITY") .float]⟩], 276, .lf⟩

set_option maxRecDepth 1000000 in
/-- Witness for C8: the all-uppercase `VERTEX` variant decodes identically to
the lowercase input. -/
theorem c8_case_insensitive_witness :
    (parseHeader c8In1 = .ok c4Hdr ∧ parseHeader c8In2 = .ok c8Hdr2 ∧
      elemsEquivB c4Hdr.elements c8Hdr2.elements = true ∧
      c8In1.drop c4Hdr.dataOffset = c8In2.drop c8Hdr2.dataOffset) ∧
    parseSplat c8In1 false false fexpU fsqrtU = parseSplat c8In2 false false fexpU fsqrtU :=
  ⟨⟨by decide, by decide, by decide, by decide⟩,
    c8_case_insensitive c8In1 c8In2 false false fexpU fsqrtU c4Hdr c8Hdr2
      (by decide) (by decide) (by decide) (by decide) (by decide) (by decide)⟩

/-! ### C9: surplus input is tolerated, missing ASCII lines are an error -/

theorem headerHitAt_bound (bytes : Bytes) (i : Nat) (r : Nat × Newline)
    (h : headerHitAt bytes i = some r) : i + 10 < bytes.length := by
  unfold headerHitAt at h
  split at h
  · dsimp only at h
    split at h
    · next hg =>
      by_contra hge
      rw [List.get?_eq_none.mpr (Nat.le_of_not_lt hge)] at hg
      exact Option.noConfusion hg
    · split at h
      · next hg =>
        by_contra hge
        rw [List.get?_eq_none.mpr (Nat.le_of_not_lt hge)] at hg
        exact Option.noConfusion hg.1
      · exact Option.noConfusion h
  · exact Option.noConfusion h

theorem take_append_le {α : Type} (n : Nat) (l₁ l₂ : List α) (h : n ≤ l₁.length) :
    (l₁ ++ l₂).take n = l₁.take n := by
  rw [List.take_append_eq_append_take, Nat.sub_eq_zero_of_le h, List.take_zero,
    List.append_nil]

theorem drop_append_le {α : Type} (n : Nat) (l₁ l₂ : List α) (h : n ≤ l₁.length) :
    (l₁ ++ l₂).drop n = l₁.drop n ++ l₂ := by
  rw [List.drop_append_eq_append_drop, Nat.sub_eq_zero_of_le h, List.drop_zero]

/-- Zeta-reduced characterization of `headerHitAt`. -/
theorem headerHitAt_eq (bytes : Bytes) (i : Nat) :
    headerHitAt bytes i =
      (if (bytes.drop i).take 10 = endHeaderPat ∧ i + 10 ≤ bytes.length then
        if bytes.get? (i + 10) = some 10 then some (i + 11, Newline.lf)
        else if bytes.get? (i + 10) = some 13 ∧ bytes.get? (i + 11) = some 10 then
          some (i + 12, Newline.crlf)
        else none
      else none) := rfl

theorem headerHitAt_append_of_lt (bytes e : Bytes) (i : Nat)
    (hlt : i + 11 < bytes.length) :
    headerHitAt (bytes ++ e) i = headerHitAt bytes i := by
  have hslice : ((bytes ++ e).drop i).take 10 = (bytes.drop i).take 10 := by
    rw [drop_append_le i bytes e (by omega),
      take_append_le 10 (bytes.drop i) e (by simp [List.length_drop]; omega)]
  have hg10 : (bytes ++ e).get? (i + 10) = bytes.get? (i + 10) :=
    List.get?_append (by omega)
  have hg11 : (bytes ++ e).get? (i + 11) = bytes.get? (i + 11) :=
    List.get?_append (by omega)
  have hlen : (i + 10 ≤ (bytes ++ e).length) ↔ (i + 10 ≤ bytes.length) := by
    simp only [List.length_append]
    omega
  rw [headerHitAt_eq, headerHitAt_eq, hslice, hg10, hg11]
  exact if_congr (and_congr Iff.rfl hlen) rfl rfl

theorem headerHitAt_append_hit (bytes e : Bytes) (i : Nat) (r : Nat × Newline)
    (h : headerHitAt bytes i = some r) :
    headerHitAt (bytes ++ e) i = some r := by
  have hb := headerHitAt_bound bytes i r h
  have hslice : ((bytes ++ e).drop i).take 10 = (bytes.drop i).take 10 := by
    rw [drop_append_le i bytes e (by omega),
      take_append_le 10 (bytes.drop i) e (by simp [List.length_drop]; omega)]
  have hg10 : (bytes ++ e).get? (i + 10) = bytes.get? (i + 10) :=
    List.get?_append (by omega)
  rw [headerHitAt_eq] at h
  rw [headerHitAt_eq, hslice, hg10]
  split at h
  · next hc =>
    rw [if_pos ⟨hc.1, by simp only [List.length_append]; omega⟩]
    split at h
    · next hgood =>
      rw [if_pos hgood]
      exact h
    · next hbad =>
      rw [if_neg hbad]
      split at h
      · next hcr =>
        have hg11 : (bytes ++ e).get? (i + 11) = bytes.get? (i + 11) := by
          rcases Nat.lt_or_ge (i + 11) bytes.length with hlt | hge
          · exact List.get?_append hlt
          · have hnone : bytes.get? (i + 11) = none := List.get?_eq_none.mpr hge
            rw [hnone] at hcr
            exact absurd hcr.2 (by simp)
        rw [if_pos ⟨hcr.1, hg11 ▸ hcr.2⟩]
        exact h
      · exact Option.noConfusion h
  · exact Option.noConfusion h

theorem scanHdr_some_exists (bytes : Bytes) :
    ∀ f i r, scanHdr bytes i f = some r →
      ∃ j, i ≤ j ∧ headerHitAt bytes j = some r := by
  intro f
  induction f with
  | zero => intro i r h; exact Option.noConfusion h
  | succ f ih =>
    intro i r h
    unfold scanHdr at h
    split at h
    · next hv => exact ⟨i, Nat.le_refl i, by rw [hv]; exact congrArg some (Option.some.inj h)⟩
    · obtain ⟨j, hj, hhit⟩ := ih (i + 1) r h
      exact ⟨j, by omega, hhit⟩

theorem scanHdr_append (bytes e : Bytes) :
    ∀ f i r, scanHdr bytes i f = some r → scanHdr (bytes ++ e) i f = some r := by
  intro f
  induction f with
  | zero => intro i r h; exact Option.noConfusion h
  | succ f ih =>
    intro i r h
    unfold scanHdr at h ⊢
    split at h
    · next hv =>
      rw [headerHitAt_append_hit bytes e i _ hv]
      exact h
    · next hv =>
      obtain ⟨j, hj, hhit⟩ := scanHdr_some_exists bytes f (i + 1) r h
      have hjb := headerHitAt_bound bytes j r hhit
      have : headerHitAt (bytes ++ e) i = none := by
        rw [headerHitAt_append_of_lt bytes e i (by omega)]
        exact hv
      rw [this]
      exact ih (i + 1) r h

theorem scanHdr_fuel_mono (m : Bytes) :
    ∀ f f' i r, f ≤ f' → scanHdr m i f = some r → scanHdr m i f' = some r := by
  intro f
  induction f with
  | zero => intro f' i r _ h; exact Option.noConfusion h
  | succ f ih =>
    intro f' i r hle h
    cases f' with
    | zero => omega
    | succ f' =>
      unfold scanHdr at h ⊢
      split at h
      · exact h
      · exact ih f' (i + 1) r (by omega) h

theorem findHeaderEnd_append (bytes e : Bytes) (hend : Nat) (nl : Newline)
    (h : findHeaderEnd bytes = .ok (hend, nl)) :
    findHeaderEnd (bytes ++ e) = .ok (hend, nl) := by
  unfold findHeaderEnd at h ⊢
  split at h
  · exact Except.noConfusion h
  · next hge =>
    cases hscan : scanHdr bytes 0 (bytes.length - 10 + 1) with
    | none =>
      rw [hscan] at h
      exact Except.noConfusion h
    | some r =>
      rw [hscan] at h
      obtain rfl : r = (hend, nl) := Except.ok.inj h
      have h1 := scanHdr_append bytes e _ 0 (hend, nl) hscan
      have h2 := scanHdr_fuel_mono (bytes ++ e) _ ((bytes ++ e).length - 10 + 1) 0
        (hend, nl) (by simp only [List.length_append]; omega) h1
      rw [if_neg (by simp only [List.length_append]; omega), h2]

theorem findHeaderEnd_le (bytes : Bytes) (hend : Nat) (nl : Newline)
    (h : findHeaderEnd bytes = .ok (hend, nl)) : hend ≤ bytes.length := by
  unfold findHeaderEnd at h
  split at h
  · exact Except.noConfusion h
  · cases hscan : scanHdr bytes 0 (bytes.length - 10 + 1) with
    | none =>
      rw [hscan] at h
      exact Except.noConfusion h
    | some r =>
      rw [hscan] at h
      obtain rfl : r = (hend, nl) := Except.ok.inj h
      obtain ⟨j, -, hhit⟩ := scanHdr_some_exists bytes _ 0 (hend, nl) hscan
      have hb := headerHitAt_bound bytes j (hend, nl) hhit
      rw [headerHitAt_eq] at hhit
      split at hhit
      · split at hhit
        · obtain ⟨rfl, -⟩ : j + 11 = hend ∧ Newline.lf = nl :=
            Prod.mk.inj (Option.some.inj hhit)
          omega
        · split at hhit
          · next hcr =>
            obtain ⟨rfl, -⟩ : j + 12 = hend ∧ Newline.crlf = nl :=
              Prod.mk.inj (Option.some.inj hhit)
            have hj11 : j + 11 < bytes.length := by
              by_contra hge
              have hnone : bytes.get? (j + 11) = none :=
                List.get?_eq_none.mpr (by omega)
              rw [hnone] at hcr
              exact Option.noConfusion hcr.2
            omega
          · exact Option.noConfusion hhit
      · exact Option.noConfusion hhit

theorem parseHeader_append (bytes e : Bytes) (h : ParsedHeader)
    (hh : parseHeader bytes = .ok h) : parseHeader (bytes ++ e) = .ok h := by
  unfold parseHeader at hh ⊢
  cases hfe : findHeaderEnd bytes with
  | error m =>
    rw [hfe] at hh
    exact Except.noConfusion hh
  | ok p =>
    obtain ⟨hend, nl⟩ := p
    rw [hfe] at hh
    rw [findHeaderEnd_append bytes e hend nl hfe]
    have hle := findHeaderEnd_le bytes hend nl hfe
    simp only [take_append_le hend bytes e hle]
    exact hh

theorem readScalar_append (bytes e : Bytes) (off : Nat) (ty : ScalarTy)
    (little : Bool) (v : Fl) (h : readScalar bytes off ty little = .ok v) :
    readScalar (bytes ++ e) off ty little = .ok v := by
  simp only [readScalar] at h ⊢
  split at h
  · next hb =>
    rw [if_pos (by simp only [List.length_append]; omega)]
    rw [drop_append_le off bytes e (by omega),
      take_append_le (sizeBytes ty) (bytes.drop off) e
        (by simp only [List.length_drop]; omega)]
    exact h
  · exact Except.noConfusion h

theorem readP_append (bytes e : Bytes) (little : Bool) (offs : List Nat)
    (base : Nat) (p : Nat × ScalarTy) (v : Fl)
    (h : readP bytes little offs base p = .ok v) :
    readP (bytes ++ e) little offs base p = .ok v :=
  readScalar_append bytes e _ p.2 little v h

theorem colorB_append (bytes e : Bytes) (little : Bool) (offs : List Nat)
    (base : Nat) (fl : ResolvedFields) (v : Nat × Nat × Nat)
    (h : colorB bytes little offs base fl = .ok v) :
    colorB (bytes ++ e) little offs base fl = .ok v := by
  unfold colorB at h ⊢
  split at h
  · next pr pg pb =>
    simp only [ebind_ok_iff] at h
    obtain ⟨rv, hrv, gv, hgv, bv, hbv, hfin⟩ := h
    rw [readP_append bytes e little offs base _ _ hrv, ebind_ok_arg,
      readP_append bytes e little offs base _ _ hgv, ebind_ok_arg,
      readP_append bytes e little offs base _ _ hbv, ebind_ok_arg]
    exact hfin
  · split at h
    · next p0 p1 p2 =>
      simp only [ebind_ok_iff] at h
      obtain ⟨f0, hf0, f1, hf1, f2, hf2, hfin⟩ := h
      rw [readP_append bytes e little offs base _ _ hf0, ebind_ok_arg,
        readP_append bytes e little offs base _ _ hf1, ebind_ok_arg,
        readP_append bytes e little offs base _ _ hf2, ebind_ok_arg]
      exact hfin
    · exact h

theorem decodeRecordB_append (bytes e : Bytes) (little : Bool) (offs : List Nat)
    (fl : ResolvedFields) (aLS aLO : Bool) (fexp fsqrt : Fl → Fl) (base : Nat)
    (r : RecOut)
    (h : decodeRecordB bytes little offs fl aLS aLO fexp fsqrt base = .ok r) :
    decodeRecordB (bytes ++ e) little offs fl aLS aLO fexp fsqrt base = .ok r := by
  unfold decodeRecordB at h ⊢
  simp only [ebind_ok_iff] at h
  obtain ⟨cx, hcx, cy, hcy, cz, hcz, s0, hs0, s1, hs1, s2, hs2, a0, ha0, a1, ha1,
    a2, ha2, a3, ha3, opv, hop, rgb, hrgb, hfin⟩ := h
  rw [readP_append bytes e little offs base _ _ hcx, ebind_ok_arg,
    readP_append bytes e little offs base _ _ hcy, ebind_ok_arg,
    readP_append bytes e little offs base _ _ hcz, ebind_ok_arg,
    readP_append bytes e little offs base _ _ hs0, ebind_ok_arg,
    readP_append bytes e little offs base _ _ hs1, ebind_ok_arg,
    readP_append bytes e little offs base _ _ hs2, ebind_ok_arg]
  simp only [ebind_ok_iff]
  exact ⟨a0, readP_append bytes e little offs base _ _ ha0,
    a1, readP_append bytes e little offs base _ _ ha1,
    a2, readP_append bytes e little offs base _ _ ha2,
    a3, readP_append bytes e little offs base _ _ ha3,
    opv, readP_append bytes e little offs base _ _ hop,
    rgb, colorB_append bytes e little offs base fl rgb hrgb, hfin⟩

theorem loopB_append (bytes e : Bytes) (little : Bool) (offs : List Nat)
    (stride : Nat) (fl : ResolvedFields) (aLS aLO : Bool) (fexp fsqrt : Fl → Fl) :
    ∀ n base recs,
      loopB bytes little offs stride fl aLS aLO fexp fsqrt n base = .ok recs →
      loopB (bytes ++ e) little offs stride fl aLS aLO fexp fsqrt n base = .ok recs := by
  intro n
  induction n with
  | zero => intro base recs h; exact h
  | succ n ih =>
    intro base recs h
    unfold loopB at h ⊢
    simp only [ebind_ok_iff] at h
    obtain ⟨r, hr, rs, hrs, hfin⟩ := h
    rw [decodeRecordB_append bytes e little offs fl aLS aLO fexp fsqrt base r hr,
      ebind_ok_arg, ih (base + stride) rs hrs, ebind_ok_arg]
    exact hfin

theorem mkOut_format (fmt : PlyFormat) (count : Nat) (recs : List RecOut) :
    (mkOut fmt count recs).format = fmt := rfl

theorem decodeBody_append_bin (fmt : PlyFormat) (nl : Newline) (dOff : Nat)
    (el : Element) (bytes e : Bytes) (aLS aLO : Bool) (fexp fsqrt : Fl → Fl)
    (out : SplatOut) (hfmt : fmt ≠ PlyFormat.ascii)
    (h : decodeBody fmt nl dOff el bytes aLS aLO fexp fsqrt = .ok out) :
    decodeBody fmt nl dOff el (bytes ++ e) aLS aLO fexp fsqrt = .ok out := by
  unfold decodeBody at h ⊢
  split at h
  · exact Except.noConfusion h
  · next hlist =>
    rw [if_neg hlist]
    simp only [ebind_ok_iff] at h
    obtain ⟨px, hpx, py, hpy, pz, hpz, p0, hp0, p1, hp1, p2, hp2, rq, hrq,
      pop, hpop, hrest⟩ := h
    cases fmt with
    | ascii => exact absurd rfl hfmt
    | binaryLittleEndian =>
      simp only [ebind_ok_iff] at hrest ⊢
      obtain ⟨recs, hrecs, hfin⟩ := hrest
      exact ⟨px, hpx, py, hpy, pz, hpz, p0, hp0, p1, hp1, p2, hp2, rq, hrq,
        pop, hpop, recs, loopB_append bytes e _ _ _ _ _ _ _ _ _ _ _ hrecs, hfin⟩
    | binaryBigEndian =>
      simp only [ebind_ok_iff] at hrest ⊢
      obtain ⟨recs, hrecs, hfin⟩ := hrest
      exact ⟨px, hpx, py, hpy, pz, hpz, p0, hp0, p1, hp1, p2, hp2, rq, hrq,
        pop, hpop, recs, loopB_append bytes e _ _ _ _ _ _ _ _ _ _ _ hrecs, hfin⟩

/-- The byte form of the detected newline terminator. -/
def nlTerm : Newline → Bytes
  | .lf => [10]
  | .crlf => [13, 10]

theorem splitLf_ne_nil (l : Bytes) : splitLf l ≠ [] := by
  cases l with
  | nil => simp [splitLf]
  | cons b r =>
    unfold splitLf
    split
    · simp
    · split <;> simp

theorem splitLf_cons (b : Nat) (r : Bytes) :
    splitLf (b :: r) =
      (if b = 10 then [] :: splitLf r
       else match splitLf r with
         | [] => [[b]]
         | h :: t => (b :: h) :: t) := rfl

theorem splitLf_append (d e : Bytes) :
    splitLf (d ++ 10 :: e) = splitLf d ++ splitLf e := by
  induction d with
  | nil => simp [splitLf, splitLf_cons]
  | cons b r ih =>
    show splitLf (b :: (r ++ 10 :: e)) = splitLf (b :: r) ++ splitLf e
    by_cases hb : b = 10
    · subst hb
      simp [splitLf_cons, ih]
    · rw [splitLf_cons, splitLf_cons, if_neg hb, if_neg hb, ih]
      cases hsr : splitLf r with
      | nil => exact absurd hsr (splitLf_ne_nil r)
      | cons h t => simp

theorem splitCrLf_cons2 (b1 b2 : Nat) (r : Bytes) :
    splitCrLf (b1 :: b2 :: r) =
      (if b1 = 13 ∧ b2 = 10 then [] :: splitCrLf r
       else match splitCrLf (b2 :: r) with
         | [] => [[b1]]
         | h :: t => (b1 :: h) :: t) := rfl

theorem splitCrLf_ne_nil (l : Bytes) : splitCrLf l ≠ [] := by
  match l with
  | [] => simp [splitCrLf]
  | [b] => simp [splitCrLf]
  | b1 :: b2 :: r =>
    rw [splitCrLf_cons2]
    split
    · simp
    · split <;> simp

theorem splitCrLf_append :
    ∀ (d e : Bytes), splitCrLf (d ++ 13 :: 10 :: e) = splitCrLf d ++ splitCrLf e
  | [], e => by
    show splitCrLf (13 :: 10 :: e) = [[]] ++ splitCrLf e
    rw [splitCrLf_cons2, if_pos ⟨rfl, rfl⟩]
    rfl
  | [b], e => by
    show splitCrLf (b :: 13 :: 10 :: e) = [[b]] ++ splitCrLf e
    rw [splitCrLf_cons2, if_neg (by simp), splitCrLf_cons2, if_pos ⟨rfl, rfl⟩]
    rfl
  | b1 :: b2 :: r, e => by
    show splitCrLf (b1 :: b2 :: (r ++ 13 :: 10 :: e)) =
      splitCrLf (b1 :: b2 :: r) ++ splitCrLf e
    by_cases h : b1 = 13 ∧ b2 = 10
    · rw [splitCrLf_cons2, if_pos h, splitCrLf_cons2, if_pos h, splitCrLf_append r e]
      rfl
    · have ih : splitCrLf (b2 :: (r ++ 13 :: 10 :: e)) = splitCrLf (b2 :: r) ++ splitCrLf e :=
        splitCrLf_append (b2 :: r) e
      rw [splitCrLf_cons2, if_neg h, splitCrLf_cons2, if_neg h, ih]
      cases hsr : splitCrLf (b2 :: r) with
      | nil => exact absurd hsr (splitCrLf_ne_nil (b2 :: r))
      | cons h t => simp

/-- Splitting the extended data on the matching terminator appends the
split of the extension. -/
theorem split_nl_append (nl : Newline) (d e : Bytes) :
    (match nl with
      | Newline.lf => splitLf (d ++ (nlTerm nl ++ e))
      | Newline.crlf => splitCrLf (d ++ (nlTerm nl ++ e))) =
    (match nl with
      | Newline.lf => splitLf d
      | Newline.crlf => splitCrLf d) ++
    (match nl with
      | Newline.lf => splitLf e
      | Newline.crlf => splitCrLf e) := by
  cases nl with
  | lf => exact splitLf_append d e
  | crlf => exact splitCrLf_append d e

theorem validUtf8_cons (b : Nat) (r : Bytes) :
    validUtf8 (b :: r) =
      (if b < 128 then validUtf8 r
       else if 194 ≤ b && b ≤ 223 then
         match r with
         | c1 :: r' => isCont c1 && validUtf8 r'
         | [] => false
       else if 224 ≤ b && b ≤ 239 then
         match r with
         | c1 :: c2 :: r' =>
           (if b = 224 then 160 ≤ c1 && c1 ≤ 191
            else if b = 237 then 128 ≤ c1 && c1 ≤ 159
            else isCont c1) && isCont c2 && validUtf8 r'
         | _ => false
       else if 240 ≤ b && b ≤ 244 then
         match r with
         | c1 :: c2 :: c3 :: r' =>
           (if b = 240 then 144 ≤ c1 && c1 ≤ 191
            else if b = 244 then 128 ≤ c1 && c1 ≤ 143
            else isCont c1) && isCont c2 && isCont c3 && validUtf8 r'
         | _ => false
       else false) := by
  match r with
  | [] => rfl
  | [c1] => rfl
  | [c1, c2] => rfl
  | c1 :: c2 :: c3 :: r' => rfl

theorem validUtf8_append_aux (bt : Bytes) (hb : validUtf8 bt = true) :
    ∀ (n : Nat) (a : Bytes), a.length ≤ n → validUtf8 a = true →
      validUtf8 (a ++ bt) = true := by
  intro n
  induction n with
  | zero =>
    intro a ha hv
    have : a = [] := List.eq_nil_of_length_eq_zero (Nat.le_zero.mp ha)
    subst this
    exact hb
  | succ n ih =>
    intro a ha hv
    cases a with
    | nil => exact hb
    | cons b r =>
      have hr : r.length ≤ n := by simp at ha; omega
      rw [List.cons_append, validUtf8_cons]
      rw [validUtf8_cons] at hv
      by_cases h1 : b < 128
      · rw [if_pos h1] at hv ⊢
        exact ih r hr hv
      · rw [if_neg h1] at hv ⊢
        by_cases h2 : (194 ≤ b && b ≤ 223) = true
        · rw [if_pos h2] at hv ⊢
          cases r with
          | nil => exact absurd hv (by simp)
          | cons c1 r' =>
            simp only [List.cons_append, Bool.and_eq_true] at hv ⊢
            exact ⟨hv.1, ih r' (by simp at hr; omega) hv.2⟩
        · rw [if_neg h2] at hv ⊢
          by_cases h3 : (224 ≤ b && b ≤ 239) = true
          · rw [if_pos h3] at hv ⊢
            match r with
            | [] => exact absurd hv (by simp)
            | [c1] => exact absurd hv (by simp)
            | c1 :: c2 :: r' =>
              simp only [List.cons_append, Bool.and_eq_true] at hv ⊢
              exact ⟨hv.1, ih r' (by simp at hr; omega) hv.2⟩
          · rw [if_neg h3] at hv ⊢
            by_cases h4 : (240 ≤ b && b ≤ 244) = true
            · rw [if_pos h4] at hv ⊢
              match r with
              | [] => exact absurd hv (by simp)
              | [c1] => exact absurd hv (by simp)
              | [c1, c2] => exact absurd hv (by simp)
              | c1 :: c2 :: c3 :: r' =>
                simp only [List.cons_append, Bool.and_eq_true] at hv ⊢
                exact ⟨hv.1, ih r' (by simp at hr; omega) hv.2⟩
            · rw [if_neg h4] at hv
              exact absurd hv (by simp)

theorem validUtf8_append (a bt : Bytes) (ha : validUtf8 a = true)
    (hb : validUtf8 bt = true) : validUtf8 (a ++ bt) = true :=
  validUtf8_append_aux bt hb a.length a (Nat.le_refl _) ha

theorem parseHeader_dataOffset_le (bytes : Bytes) (h : ParsedHeader)
    (hh : parseHeader bytes = .ok h) : h.dataOffset ≤ bytes.length := by
  unfold parseHeader at hh
  cases hfe : findHeaderEnd bytes with
  | error m =>
    rw [hfe] at hh
    exact Except.noConfusion hh
  | ok p =>
    obtain ⟨hend, nl⟩ := p
    rw [hfe] at hh
    have hle := findHeaderEnd_le bytes hend nl hfe
    dsimp only at hh
    split at hh
    · split at hh
      · exact Except.noConfusion hh
      · split at hh
        · split at hh
          · exact Except.noConfusion hh
          · exact Except.noConfusion hh
          · next heq =>
            obtain rfl : _ = h := Except.ok.inj hh
            exact hle
        · exact Except.noConfusion hh
    · exact Except.noConfusion hh

theorem parseSplat_append_bin (bytes extra : Bytes) (aLS aLO : Bool)
    (fexp fsqrt : Fl → Fl) (out : SplatOut)
    (hok : parseSplat bytes aLS aLO fexp fsqrt = .ok out)
    (hfmt : out.format ≠ PlyFormat.ascii) :
    parseSplat (bytes ++ extra) aLS aLO fexp fsqrt = .ok out := by
  unfold parseSplat at hok ⊢
  simp only [ebind_ok_iff] at hok
  obtain ⟨h, hh, el, hel, hbody⟩ := hok
  rw [parseHeader_append bytes extra h hh, ebind_ok_arg, hel, ebind_ok_arg]
  have hfmt' : h.format ≠ PlyFormat.ascii := by
    obtain ⟨recs, -, hout, -⟩ := decodeBody_ok_shape _ _ _ _ _ _ _ _ _ _ hbody
    intro hc
    exact hfmt (by rw [hout, mkOut_format, hc])
  exact decodeBody_append_bin _ _ _ _ _ _ _ _ _ _ _ hfmt' hbody

theorem decodeBody_append_ascii (nl : Newline) (dOff : Nat) (el : Element)
    (bytes extra : Bytes) (aLS aLO : Bool) (fexp fsqrt : Fl → Fl) (out : SplatOut)
    (hd : dOff ≤ bytes.length)
    (hutf : validUtf8 extra = true)
    (h : decodeBody PlyFormat.ascii nl dOff el bytes aLS aLO fexp fsqrt = .ok out) :
    decodeBody PlyFormat.ascii nl dOff el (bytes ++ (nlTerm nl ++ extra))
      aLS aLO fexp fsqrt = .ok out := by
  unfold decodeBody at h ⊢
  split at h
  · exact Except.noConfusion h
  · next hlist =>
    rw [if_neg hlist]
    simp only [ebind_ok_iff] at h
    obtain ⟨px, hpx, py, hpy, pz, hpz, p0, hp0, p1, hp1, p2, hp2, rq, hrq,
      pop, hpop, hrest⟩ := h
    simp only [ebind_ok_iff]
    refine ⟨px, hpx, py, hpy, pz, hpz, p0, hp0, p1, hp1, p2, hp2, rq, hrq,
      pop, hpop, ?_⟩
    cases nl with
    | lf =>
      dsimp only [nlTerm] at hrest ⊢
      simp only [List.singleton_append]
      have hdata : (bytes ++ 10 :: extra).drop dOff =
          bytes.drop dOff ++ 10 :: extra := drop_append_le dOff bytes _ hd
      simp only [hdata]
      split at hrest
      · next hvu =>
        have hvext : validUtf8 (bytes.drop dOff ++ 10 :: extra) = true :=
          validUtf8_append _ _ hvu
            (by rw [validUtf8_cons]; simpa using hutf)
        rw [if_pos hvext]
        split at hrest
        · exact Except.noConfusion hrest
        · next hlines =>
          have hfl : List.filter (fun l => decide (trimB l ≠ []))
                (splitLf (bytes.drop dOff ++ 10 :: extra)) =
              List.filter (fun l => decide (trimB l ≠ [])) (splitLf (bytes.drop dOff)) ++
              List.filter (fun l => decide (trimB l ≠ [])) (splitLf extra) := by
            rw [splitLf_append, List.filter_append]
          rw [hfl]
          rw [if_neg (by rw [List.length_append]; omega)]
          simp only [ebind_ok_iff] at hrest ⊢
          obtain ⟨cxc, h1, cyc, h2, czc, h3, c0c, h4, c1c, h5, c2c, h6, rqc, h7,
            opc, h8, recs, hrecs, hfin⟩ := hrest
          refine ⟨cxc, h1, cyc, h2, czc, h3, c0c, h4, c1c, h5, c2c, h6, rqc, h7,
            opc, h8, recs, ?_, hfin⟩
          rw [take_append_le el.count _ _ (Nat.le_of_not_lt hlines)]
          exact hrecs
      · exact Except.noConfusion hrest
    | crlf =>
      dsimp only [nlTerm] at hrest ⊢
      simp only [List.cons_append, List.nil_append]
      have hdata : (bytes ++ 13 :: 10 :: extra).drop dOff =
          bytes.drop dOff ++ 13 :: 10 :: extra := drop_append_le dOff bytes _ hd
      simp only [hdata]
      split at hrest
      · next hvu =>
        have hvext : validUtf8 (bytes.drop dOff ++ 13 :: 10 :: extra) = true :=
          validUtf8_append _ _ hvu
            (by rw [validUtf8_cons]; simp; rw [validUtf8_cons]; simpa using hutf)
        rw [if_pos hvext]
        split at hrest
        · exact Except.noConfusion hrest
        · next hlines =>
          have hfl : List.filter (fun l => decide (trimB l ≠ []))
                (splitCrLf (bytes.drop dOff ++ 13 :: 10 :: extra)) =
              List.filter (fun l => decide (trimB l ≠ [])) (splitCrLf (bytes.drop dOff)) ++
              List.filter (fun l => decide (trimB l ≠ [])) (splitCrLf extra) := by
            rw [splitCrLf_append, List.filter_append]
          rw [hfl]
          rw [if_neg (by rw [List.length_append]; omega)]
          simp only [ebind_ok_iff] at hrest ⊢
          obtain ⟨cxc, h1, cyc, h2, czc, h3, c0c, h4, c1c, h5, c2c, h6, rqc, h7,
            opc, h8, recs, hrecs, hfin⟩ := hrest
          refine ⟨cxc, h1, cyc, h2, czc, h3, c0c, h4, c1c, h5, c2c, h6, rqc, h7,
            opc, h8, recs, ?_, hfin⟩
          rw [take_append_le el.count _ _ (Nat.le_of_not_lt hlines)]
          exact hrecs
      · exact Except.noConfusion hrest

theorem parseSplat_append_ascii (bytes extra : Bytes) (aLS aLO : Bool)
    (fexp fsqrt : Fl → Fl) (h : ParsedHeader) (out : SplatOut)
    (hh : parseHeader bytes = .ok h)
    (hok : parseSplat bytes aLS aLO fexp fsqrt = .ok out)
    (hfmt : out.format = PlyFormat.ascii)
    (hutf : validUtf8 extra = true) :
    parseSplat (bytes ++ (nlTerm h.newline ++ extra)) aLS aLO fexp fsqrt = .ok out := by
  unfold parseSplat at hok ⊢
  simp only [ebind_ok_iff] at hok
  obtain ⟨h', hh', el, hel, hbody⟩ := hok
  obtain rfl : h = h' := by
    rw [hh] at hh'
    exact Except.ok.inj hh'
  rw [parseHeader_append bytes _ h hh, ebind_ok_arg, hel, ebind_ok_arg]
  have hfmt' : h.format = PlyFormat.ascii := by
    obtain ⟨recs, -, hout, -⟩ := decodeBody_ok_shape _ _ _ _ _ _ _ _ _ _ hbody
    rw [hout, mkOut_format] at hfmt
    exact hfmt
  rw [hfmt'] at hbody ⊢
  exact decodeBody_append_ascii _ _ _ _ _ _ _ _ _ _
    (parseHeader_dataOffset_le bytes h hh) hutf hbody

/-- The non-empty data lines of the ASCII body, exactly as `decodeBody`
computes them (split at the detected newline convention, blank lines
dropped). -/
def asciiLines (nl : Newline) (dOff : Nat) (bytes : Bytes) : List Bytes :=
  (match nl with
    | .lf => splitLf (bytes.drop dOff)
    | .crlf => splitCrLf (bytes.drop dOff)).filter (fun l => trimB l ≠ [])

theorem decodeBody_short_lines (nl nl' : Newline) (dOff dOff' : Nat) (el : Element)
    (bytes bytes' : Bytes) (aLS aLO : Bool) (fexp fsqrt : Fl → Fl) (out : SplatOut)
    (hok : decodeBody PlyFormat.ascii nl' dOff' el bytes' aLS aLO fexp fsqrt = .ok out)
    (hutf : validUtf8 (bytes.drop dOff) = true)
    (hlines : (asciiLines nl dOff bytes).length < el.count) :
    decodeBody PlyFormat.ascii nl dOff el bytes aLS aLO fexp fsqrt =
      .error "PLY ASCII: not enough vertex lines" := by
  unfold asciiLines at hlines
  unfold decodeBody at hok ⊢
  split at hok
  · exact Except.noConfusion hok
  · next hlist =>
    rw [if_neg hlist]
    simp only [ebind_ok_iff] at hok
    obtain ⟨px, hpx, py, hpy, pz, hpz, p0, hp0, p1, hp1, p2, hp2, rq, hrq,
      pop, hpop, -⟩ := hok
    simp only [hpx, hpy, hpz, hp0, hp1, hp2, hrq, hpop, ebind_ok_arg]
    rw [if_pos hutf, if_pos hlines]

/-- C9: decoding consumes exactly `N` records and tolerates surplus input.
(1) Binary: appending arbitrary bytes after a successfully decoded binary
input is ignored — the output is unchanged. (2) ASCII: appending a newline
terminator and further valid-UTF-8 bytes after a successfully decoded ASCII
input is ignored — only the first `N` non-empty lines are decoded. (3) ASCII
with fewer than `N` non-empty data lines fails with the
"not enough vertex lines" error (before any record is decoded), whenever the
same vertex element decodes successfully on some other body. -/
theorem c9_surplus_input :
    (∀ (bytes extra : Bytes) (aLS aLO : Bool) (fexp fsqrt : Fl → Fl) (out : SplatOut),
      parseSplat bytes aLS aLO fexp fsqrt = .ok out →
      out.format ≠ PlyFormat.ascii →
      parseSplat (bytes ++ extra) aLS aLO fexp fsqrt = .ok out) ∧
    (∀ (bytes extra : Bytes) (aLS aLO : Bool) (fexp fsqrt : Fl → Fl)
        (h : ParsedHeader) (out : SplatOut),
      parseHeader bytes = .ok h →
      parseSplat bytes aLS aLO fexp fsqrt = .ok out →
      out.format = PlyFormat.ascii →
      validUtf8 extra = true →
      parseSplat (bytes ++ (nlTerm h.newline ++ extra)) aLS aLO fexp fsqrt = .ok out) ∧
    (∀ (nl nl' : Newline) (dOff dOff' : Nat) (el : Element) (bytes bytes' : Bytes)
        (aLS aLO : Bool) (fexp fsqrt : Fl → Fl) (out : SplatOut),
      decodeBody PlyFormat.ascii nl' dOff' el bytes' aLS aLO fexp fsqrt = .ok out →
      validUtf8 (bytes.drop dOff) = true →
      (asciiLines nl dOff bytes).length < el.count →
      decodeBody PlyFormat.ascii nl dOff el bytes aLS aLO fexp fsqrt =
        .error "PLY ASCII: not enough vertex lines") :=
  ⟨fun bytes extra aLS aLO fexp fsqrt out hok hfmt =>
      parseSplat_append_bin bytes extra aLS aLO fexp fsqrt out hok hfmt,
    fun bytes extra aLS aLO fexp fsqrt h out hh hok hfmt hutf =>
      parseSplat_append_ascii bytes extra aLS aLO fexp fsqrt h out hh hok hfmt hutf,
    fun nl nl' dOff dOff' el bytes bytes' aLS aLO fexp fsqrt out hok hutf hlines =>
      decodeBody_short_lines nl nl' dOff dOff' el bytes bytes' aLS aLO fexp fsqrt out
        hok hutf hlines⟩

def c9BinHdr : String :=
  "ply\nformat binary_little_endian 1.0\nelement vertex 1\nproperty float x\nproperty float y\nproperty float z\nproperty float scale_0\nproperty float scale_1\nproperty float scale_2\nproperty float rot_0\nproperty float rot_1\nproperty float rot_2\nproperty float rot_3\nproperty float opacity\nend_header\n"

def c9BinIn : Bytes := strBytes c9BinHdr ++ List.replicate 44 0

def c9BinOut : SplatOut :=
  ⟨1, .binaryLittleEndian, [.fin 0, .fin 0, .fin 0],
    [.fin 0, .fin 0, .fin 0, .fin 0, .fin 0, .fin 0],
    [16777215], [.fin 0, .fin 0, .fin 0], [.fin 0, .fin 0, .fin 0]⟩

set_option maxRecDepth 400000 in
/-- Witness for C9: (1) a one-record little-endian binary input decodes
identically with `"junk"` appended; (2) a one-record ASCII input decodes
identically with a newline plus `"junk"` appended; (3) the same header with
its single data line removed fails with the "not enough vertex lines"
error. -/
theorem c9_surplus_input_witness :
    (parseSplat c9BinIn false false fexpU fsqrtU = .ok c9BinOut ∧
      c9BinOut.format ≠ PlyFormat.ascii ∧
      parseSplat (c9BinIn ++ strBytes "junk") false false fexpU fsqrtU = .ok c9BinOut) ∧
    (parseHeader c1InPos = .ok c4Hdr ∧
      parseSplat c1InPos false false fexpU fsqrtU = .ok c1OutPos ∧
      c1OutPos.format = PlyFormat.ascii ∧
      validUtf8 (strBytes "junk") = true ∧
      parseSplat (c1InPos ++ (nlTerm c4Hdr.newline ++ strBytes "junk")) false false
        fexpU fsqrtU = .ok c1OutPos) ∧
    (decodeBody PlyFormat.ascii .lf 276 c4El c1InPos false false fexpU fsqrtU =
        .ok c1OutPos ∧
      validUtf8 ((strBytes tAsciiHdr).drop 276) = true ∧
      (asciiLines .lf 276 (strBytes tAsciiHdr)).length < c4El.count ∧
      decodeBody PlyFormat.ascii .lf 276 c4El (strBytes tAsciiHdr) false false
        fexpU fsqrtU = .error "PLY ASCII: not enough vertex lines") :=
  ⟨⟨by decide, by decide,
      c9_surplus_input.1 c9BinIn (strBytes "junk") false false fexpU fsqrtU c9BinOut
        (by decide) (by decide)⟩,
    ⟨by decide, by decide, by decide, by decide,
      c9_surplus_input.2.1 c1InPos (strBytes "junk") false false fexpU fsqrtU c4Hdr
        c1OutPos (by decide) (by decide) (by decide) (by decide)⟩,
    ⟨by decide, by decide, by decide,
      c9_surplus_input.2.2 .lf .lf 276 276 c4El (strBytes tAsciiHdr) c1InPos false false
        fexpU fsqrtU c1OutPos (by decide) (by decide) (by decide)⟩⟩

/-- Witness for C2 at the concrete inputs `"not a ply file"` and `[]`. -/
theorem c2_missing_sentinel_witness :
    ((∀ i, i < (strBytes "not a ply file").length → ¬ sentinelHit (strBytes "not a ply file") i) ∧
      parseSplat (strBytes "not a ply file") true true fexpU fsqrtU =
        .error "PLY: can't find end_header") ∧
    parseSplat [] false false fexpU fsqrtU = .error "PLY: can't find end_header" :=
  ⟨⟨by decide, c2_missing_sentinel (strBytes "not a ply file") true true fexpU fsqrtU (by decide)⟩,
    c2_missing_sentinel [] false false fexpU fsqrtU (by decide)⟩
